import Mathlib

/-!
Verification of the GPX Terrain Flyby track-playback engine
(frontend `App.tsx`): geodesic helpers, track resampler, distance-index
interpolation, bearing smoother, camera state machine, playback controls and
the route-reveal overlay.

Numbers are modelled by a linear ordered field (instantiated at `ℚ` for the
pure sample-processing layer and at `ℝ` for the trigonometric camera layer);
JavaScript's `%` operator (truncated remainder) is modelled by `jsMod`.
NaN propagation through `Math.min`/`Math.max` is modelled separately by
`JsNum` (`Option ℚ`, `none` = NaN).
-/

namespace GpxFlyby

variable {α : Type*} [LinearOrderedField α]

/-- `App.tsx` line 710: `clamp(value, min, max) = Math.min(Math.max(value, min), max)`
(for non-NaN numbers). -/
def clamp (value lo hi : α) : α := min (max value lo) hi

/-- `App.tsx` line 713: `lerp(a, b, t) = a + (b - a) * t`. -/
def lerp (a b t : α) : α := a + (b - a) * t

lemma clamp_le (v lo hi : α) : clamp v lo hi ≤ hi := min_le_right _ _

lemma le_clamp (v lo hi : α) (h : lo ≤ hi) : lo ≤ clamp v lo hi :=
  le_min (le_max_right _ _) h

lemma clamp_eq_self (v lo hi : α) (h1 : lo ≤ v) (h2 : v ≤ hi) : clamp v lo hi = v := by
  simp [clamp, max_eq_left h1, min_eq_left h2]

lemma lerp_zero (a b : α) : lerp a b 0 = a := by simp [lerp]

lemma lerp_one (a b : α) : lerp a b 1 = b := by simp [lerp]

lemma lerp_self (a t : α) : lerp a a t = a := by simp [lerp]

variable [FloorRing α]

/-- JavaScript truncation toward zero (`Math.trunc` / the quotient used by `%`). -/
def jsTrunc (x : α) : ℤ := if 0 ≤ x then ⌊x⌋ else ⌈x⌉

/-- JavaScript's `%` operator on finite numbers: `a % b = a - b * trunc(a / b)`,
the remainder taking the sign of the dividend. -/
def jsMod (a b : α) : α := a - b * ((jsTrunc (a / b) : ℤ) : α)

/-- `App.tsx` lines 727-730: `shortestAngleDiff(from, to) = ((to - from + 540) % 360) - 180`. -/
def shortestAngleDiff (f t : α) : α := jsMod (t - f + 540) 360 - 180

lemma jsTrunc_eq_floor {x : α} (h : 0 ≤ x) : jsTrunc x = ⌊x⌋ := by
  simp [jsTrunc, h]

/-- For a nonnegative dividend and positive divisor, the JS remainder lies in `[0, b)`. -/
lemma jsMod_mem {a b : α} (hb : 0 < b) (ha : 0 ≤ a) :
    0 ≤ jsMod a b ∧ jsMod a b < b := by
  have hq : (0:α) ≤ a / b := div_nonneg ha hb.le
  have h1 : jsMod a b = b * (a / b - ⌊a / b⌋) := by
    rw [jsMod, jsTrunc_eq_floor hq]
    field_simp
  constructor
  · rw [h1]
    exact mul_nonneg hb.le (sub_nonneg.2 (Int.floor_le _))
  · rw [h1]
    have h2 : a / b - ⌊a / b⌋ < 1 := by
      have := Int.lt_floor_add_one (a / b)
      linarith
    calc b * (a / b - ⌊a / b⌋) < b * 1 := (mul_lt_mul_left hb).2 h2
    _ = b := mul_one b

/-- `jsMod a b` differs from `a` by an integer multiple of `b`. -/
lemma jsMod_sub_int (a b : α) : ∃ k : ℤ, jsMod a b = a - b * k :=
  ⟨jsTrunc (a / b), rfl⟩

/-- Uniqueness: any value in `[0, b)` congruent to `a` mod `b` is `jsMod a b`
(for `a ≥ 0`, `b > 0`). -/
lemma jsMod_eq_of_mem {a b r : α} (hb : 0 < b) (ha : 0 ≤ a)
    (hr0 : 0 ≤ r) (hrb : r < b) (k : ℤ) (hk : a - r = b * k) :
    jsMod a b = r := by
  obtain ⟨m, hm⟩ := jsMod_sub_int a b
  obtain ⟨h0, h1⟩ := jsMod_mem hb ha
  -- jsMod a b - r = b * (k - m)
  have hdiff : jsMod a b - r = b * ((k : α) - m) := by
    rw [hm]
    have : a - r = b * k := hk
    push_cast
    linarith [this]
  have hkm : k = m := by
    by_contra hne
    have h1' : (1:α) ≤ |((k : α) - m)| := by
      have : (1:ℤ) ≤ |k - m| := Int.one_le_abs (by omega)
      calc (1:α) = ((1:ℤ) : α) := by norm_num
      _ ≤ ((|k - m| : ℤ) : α) := by exact_mod_cast this
      _ = |((k - m : ℤ) : α)| := Int.cast_abs
      _ = |((k : α) - m)| := by push_cast; ring_nf
    have hineq : b * 1 ≤ b * |((k : α) - m)| :=
      (mul_le_mul_left hb).2 h1'
    have habs : |jsMod a b - r| = b * |((k : α) - m)| := by
      rw [hdiff, abs_mul, abs_of_pos hb]
    have : |jsMod a b - r| < b := by
      rw [abs_lt]; constructor <;> linarith
    rw [habs] at this
    linarith
  have : a - r = b * (m : α) := by rw [hk, hkm]
  rw [hm]
  linarith [this]

/-- For bearings in `[0, 360)` the angle difference lies in `[-180, 180)` and is
congruent to `to - from` modulo 360. -/
lemma shortestAngleDiff_mem {f t : α} (hf0 : 0 ≤ f) (hf : f < 360)
    (ht0 : 0 ≤ t) (ht : t < 360) :
    -180 ≤ shortestAngleDiff f t ∧ shortestAngleDiff f t < 180 ∧
      ∃ k : ℤ, shortestAngleDiff f t = (t - f) + 360 * k := by
  have harg : (0:α) ≤ t - f + 540 := by linarith
  obtain ⟨h0, h1⟩ := jsMod_mem (by norm_num : (0:α) < 360) harg
  obtain ⟨k, hk⟩ := jsMod_sub_int (t - f + 540) (360 : α)
  refine ⟨by simp only [shortestAngleDiff]; linarith,
          by simp only [shortestAngleDiff]; linarith, 1 - k, ?_⟩
  simp only [shortestAngleDiff, hk]
  push_cast
  ring

/-- Angle difference from a bearing to itself is zero. -/
lemma shortestAngleDiff_self {b : α} (hb0 : 0 ≤ b) (hb : b < 360) :
    shortestAngleDiff b b = 0 := by
  have h : jsMod (540 : α) 360 = 180 := by
    apply jsMod_eq_of_mem (by norm_num) (by norm_num) (by norm_num) (by norm_num) 1
    ring
  simp [shortestAngleDiff, h]

/-- Wrapping `(x + 360) % 360` fixes any `x` already in `[0, 360)`. -/
lemma jsMod_wrap_eq_self {x : α} (hx0 : 0 ≤ x) (hx : x < 360) :
    jsMod (x + 360) 360 = x := by
  apply jsMod_eq_of_mem (by norm_num) (by linarith) hx0 hx 1
  ring

/-- `App.tsx` lines 1302-1306: the exponentially blended desired bearing
`(prev + shortestAngleDiff(prev, raw) * smoothing + 360) % 360`. -/
def desiredBearing (prev raw s : α) : α :=
  jsMod (prev + shortestAngleDiff prev raw * s + 360) 360

/-- `App.tsx` lines 1300-1308: one bearing-smoother update with a previous
bearing present — blend, rate-limit the turn step to `[-2.5, 2.5]`, wrap. -/
def bearingStep (prev raw s : α) : α :=
  jsMod (prev + clamp (shortestAngleDiff prev (desiredBearing prev raw s)) (-(5/2)) (5/2) + 360)
    360

/-- C6: whenever a previous bearing in `[0,360)` exists, one bearing-smoother
update moves it by at most 2.5° of shortest-path rotation, for every raw target
bearing and smoothing factor; the new bearing is the previous one plus the turn
step clamped to `[-2.5, 2.5]`, wrapped into `[0, 360)`. -/
theorem bearingStep_turn_rate_bound (prev raw s : ℚ) (h0 : 0 ≤ prev) (h1 : prev < 360) :
    |shortestAngleDiff prev (bearingStep prev raw s)| ≤ 5/2 ∧
    0 ≤ bearingStep prev raw s ∧ bearingStep prev raw s < 360 ∧
    bearingStep prev raw s =
      jsMod (prev +
        clamp (shortestAngleDiff prev (desiredBearing prev raw s)) (-(5/2)) (5/2) + 360) 360 := by
  set t : ℚ := clamp (shortestAngleDiff prev (desiredBearing prev raw s)) (-(5/2)) (5/2) with ht
  have htlo : -(5/2) ≤ t := le_clamp _ _ _ (by norm_num)
  have hthi : t ≤ 5/2 := clamp_le _ _ _
  have harg : (0:ℚ) ≤ prev + t + 360 := by linarith
  obtain ⟨hr0, hr1⟩ := jsMod_mem (by norm_num : (0:ℚ) < 360) harg
  obtain ⟨k, hk⟩ := jsMod_sub_int (prev + t + 360) (360:ℚ)
  have hres : bearingStep prev raw s = jsMod (prev + t + 360) 360 := rfl
  refine ⟨?_, by rw [hres]; exact hr0, by rw [hres]; exact hr1, rfl⟩
  have hsad : shortestAngleDiff prev (bearingStep prev raw s) = t := by
    have harg2 : (0:ℚ) ≤ bearingStep prev raw s - prev + 540 := by
      rw [hres]; linarith
    have hcong : bearingStep prev raw s - prev + 540 - (t + 180) = 360 * (((2 - k : ℤ)) : ℚ) := by
      rw [hres, hk]; push_cast; ring
    have : jsMod (bearingStep prev raw s - prev + 540) 360 = t + 180 :=
      jsMod_eq_of_mem (show (0:ℚ) < 360 by norm_num) harg2
        (show (0:ℚ) ≤ t + 180 by linarith) (show t + 180 < (360:ℚ) by linarith)
        (2 - k) hcong
    simp [shortestAngleDiff, this]
  rw [hsad, abs_le]
  exact ⟨htlo, hthi⟩

/-- Witness for C6 at `prev = 10`, `raw = 200`, `s = 1/5`. -/
theorem bearingStep_turn_rate_bound_witness :
    |shortestAngleDiff (10:ℚ) (bearingStep 10 200 (1/5))| ≤ 5/2 ∧
    0 ≤ bearingStep (10:ℚ) 200 (1/5) ∧ bearingStep (10:ℚ) 200 (1/5) < 360 ∧
    bearingStep (10:ℚ) 200 (1/5) =
      jsMod ((10:ℚ) +
        clamp (shortestAngleDiff 10 (desiredBearing 10 200 (1/5))) (-(5/2)) (5/2) + 360) 360 :=
  bearingStep_turn_rate_bound 10 200 (1/5) (by norm_num) (by norm_num)

/-- C7 (amended): for bearings `from`, `to` in `[0, 360)`, `shortestAngleDiff`
returns a value in the half-open interval `[-180, 180)` (not `(-180, 180]`:
the tie at 180° resolves to `-180`) congruent to `to - from` modulo 360, hence
the signed shortest rotation; the two documented examples hold:
`shortestAngleDiff 350 10 = 20` and `shortestAngleDiff 10 350 = -20`. -/
theorem shortestAngleDiff_spec :
    (∀ f t : ℚ, 0 ≤ f → f < 360 → 0 ≤ t → t < 360 →
      -180 ≤ shortestAngleDiff f t ∧ shortestAngleDiff f t < 180 ∧
        ∃ k : ℤ, shortestAngleDiff f t = (t - f) + 360 * k) ∧
    shortestAngleDiff (350:ℚ) 10 = 20 ∧ shortestAngleDiff (10:ℚ) 350 = -20 := by
  refine ⟨fun f t hf0 hf ht0 ht => shortestAngleDiff_mem hf0 hf ht0 ht, ?_, ?_⟩
  · norm_num [shortestAngleDiff, jsMod, jsTrunc]
  · norm_num [shortestAngleDiff, jsMod, jsTrunc]

/-- Witness for C7 at `from = 90`, `to = 270`. -/
theorem shortestAngleDiff_spec_witness :
    -180 ≤ shortestAngleDiff (90:ℚ) 270 ∧ shortestAngleDiff (90:ℚ) 270 < 180 ∧
      ∃ k : ℤ, shortestAngleDiff (90:ℚ) 270 = (270 - 90) + 360 * k :=
  shortestAngleDiff_spec.1 90 270 (by norm_num) (by norm_num) (by norm_num) (by norm_num)

/-- C7 counterexample: the claim says the result always lies in `(-180, 180]`,
but `shortestAngleDiff 0 180 = -180`, which is outside that interval. -/
theorem shortestAngleDiff_not_in_Ioc :
    shortestAngleDiff (0:ℚ) 180 = -180 ∧
    ¬(-180 < shortestAngleDiff (0:ℚ) 180 ∧ shortestAngleDiff (0:ℚ) 180 ≤ 180) := by
  have h : shortestAngleDiff (0:ℚ) 180 = -180 := by
    norm_num [shortestAngleDiff, jsMod, jsTrunc]
  exact ⟨h, by rw [h]; norm_num⟩

/-! ## Track points, distance index and resampler -/

/-- `TrackPoint` as delivered by the backend API (`api.ts` lines 21-27). -/
structure TrackPoint (β : Type*) where
  lat : β
  lon : β
  ele : Option β
  time : Option String
  distanceFromStartM : β
deriving DecidableEq

/-- Array indexing `points[i]` (in-bounds wherever the source uses it). -/
def getP (pts : List (TrackPoint α)) (i : ℕ) : TrackPoint α :=
  pts.getD i ⟨0, 0, none, none, 0⟩

/-- `points[i].distanceFromStartM`. -/
def dAt (pts : List (TrackPoint α)) (i : ℕ) : α :=
  (getP pts i).distanceFromStartM

/-- `App.tsx` lines 752-761: the lower-bound binary search — smallest index in
`[low, high]` whose `distanceFromStartM` is `≥ target` (or `high` if none). -/
def lowerBound (pts : List (TrackPoint α)) (target : α) (low high : ℕ) : ℕ :=
  if _h : low < high then
    if dAt pts ((low + high) / 2) < target then
      lowerBound pts target ((low + high) / 2 + 1) high
    else
      lowerBound pts target low ((low + high) / 2)
  else low
termination_by high - low
decreasing_by
  · omega
  · omega

/-- Result record of `interpolatePointAtDistance`. -/
structure InterpPoint (β : Type*) where
  lat : β
  lon : β
  index : ℕ
deriving DecidableEq

/-- `App.tsx` lines 742-775: clamp the target distance, lower-bound
binary-search the bracketing segment, linearly interpolate lat/lon with an
`1e-4` epsilon floor on the denominator. -/
def interpolatePointAtDistance (pts : List (TrackPoint α)) (targetDistanceM : α) :
    InterpPoint α :=
  if pts.length = 0 then ⟨0, 0, 0⟩
  else if pts.length = 1 then ⟨(getP pts 0).lat, (getP pts 0).lon, 0⟩
  else
    let maxDistance := dAt pts (pts.length - 1)
    let target := clamp targetDistanceM 0 (max maxDistance 0)
    let low := lowerBound pts target 0 (pts.length - 1)
    let rightIndex := min (max low 1) (pts.length - 1)
    let leftIndex := rightIndex - 1
    let left := getP pts leftIndex
    let right := getP pts rightIndex
    let span := max (right.distanceFromStartM - left.distanceFromStartM) (1/10000)
    let t := clamp ((target - left.distanceFromStartM) / span) 0 1
    ⟨lerp left.lat right.lat t, lerp left.lon right.lon t, leftIndex⟩

/-- `App.tsx` lines 776-798: resample to `max 300 maxPoints` evenly spaced
distances when the input is longer than both 2 and `maxPoints`; elevation is
copied from `points[interp.index]`, the timestamp is dropped. -/
def buildPlaybackPoints (pts : List (TrackPoint α)) (maxPoints : ℕ := 1800) :
    List (TrackPoint α) :=
  if pts.length ≤ 2 ∨ pts.length ≤ maxPoints then pts
  else
    let totalDistance := max (dAt pts (pts.length - 1)) 1
    let targetCount := max 300 maxPoints
    let interval := totalDistance / ((targetCount : α) - 1)
    (List.range targetCount).map fun (i : ℕ) =>
      let targetDistance := min totalDistance ((i : α) * interval)
      let interp := interpolatePointAtDistance pts targetDistance
      let nearest := pts.getD interp.index (getP pts 0)
      ⟨interp.lat, interp.lon, nearest.ele, none, targetDistance⟩

/-- The body of the `points.map` in `App.tsx` lines 804-821: triangular-kernel
weighted average of lat/lon over offsets `-radius..radius` (indices clamped to
the array bounds); endpoints pass through unchanged. -/
def smoothedAt (pts : List (TrackPoint α)) (radius : ℕ) (i : ℕ) : TrackPoint α :=
  let point := getP pts i
  if i = 0 ∨ i = pts.length - 1 then point
  else
    let acc := (List.range (2 * radius + 1)).foldl
      (fun (acc : α × α × α) j' =>
        let j : ℤ := (j' : ℤ) - (radius : ℤ)
        let idx := (min (max ((i : ℤ) + j) 0) ((pts.length : ℤ) - 1)).toNat
        let weight : α := (((radius : ℤ) + 1 - |j|) : ℤ)
        (acc.1 + (getP pts idx).lat * weight,
         acc.2.1 + (getP pts idx).lon * weight,
         acc.2.2 + weight))
      (0, 0, 0)
    { point with lat := acc.1 / acc.2.2, lon := acc.2.1 / acc.2.2 }

/-- `App.tsx` lines 799-823: spatial smoothing pass over the resampled points. -/
def smoothPlaybackPoints (pts : List (TrackPoint α)) (radius : ℕ := 2) :
    List (TrackPoint α) :=
  if pts.length ≤ 4 ∨ radius = 0 then pts
  else (List.range pts.length).map (smoothedAt pts radius)

/-- The full Track Resampler of spec §4.2: resampling followed by smoothing
(`App.tsx` lines 1219-1220). -/
def resampleTrack (pts : List (TrackPoint α)) (maxPoints : ℕ := 1800) :
    List (TrackPoint α) :=
  smoothPlaybackPoints (buildPlaybackPoints pts maxPoints) 2

/-! ### Binary-search correctness -/

lemma lowerBound_bounds (pts : List (TrackPoint α)) (target : α) :
    ∀ low high, low ≤ high →
      low ≤ lowerBound pts target low high ∧ lowerBound pts target low high ≤ high := by
  intro low high
  induction low, high using lowerBound.induct pts target with
  | case1 low high h hlt ih =>
    intro _
    rw [lowerBound, dif_pos h, if_pos hlt]
    have := ih (by omega)
    omega
  | case2 low high h hlt ih =>
    intro _
    rw [lowerBound, dif_pos h, if_neg hlt]
    have := ih (by omega)
    omega
  | case3 low high h =>
    intro hlh
    rw [lowerBound, dif_neg h]
    omega

/-- Everything strictly below the search result is `< target`
(given monotone distances and a valid precondition below `low`). -/
lemma lowerBound_below (pts : List (TrackPoint α)) (target : α)
    (hm : ∀ i j, i ≤ j → j < pts.length → dAt pts i ≤ dAt pts j) :
    ∀ low high, low ≤ high → high < pts.length →
      (∀ i, i < low → dAt pts i < target) →
      ∀ i, i < lowerBound pts target low high → dAt pts i < target := by
  intro low high
  induction low, high using lowerBound.induct pts target with
  | case1 low high h hlt ih =>
    intro _ hhigh hpre i hi
    rw [lowerBound, dif_pos h, if_pos hlt] at hi
    refine ih (by omega) hhigh ?_ i hi
    intro i' hi'
    rcases lt_or_ge i' low with hc | hc
    · exact hpre i' hc
    · have hle : dAt pts i' ≤ dAt pts ((low + high) / 2) :=
        hm i' ((low + high) / 2) (by omega) (by omega)
      linarith
  | case2 low high h hlt ih =>
    intro _ hhigh hpre i hi
    rw [lowerBound, dif_pos h, if_neg hlt] at hi
    exact ih (by omega) (by omega) hpre i hi
  | case3 low high h =>
    intro hlh _ hpre i hi
    rw [lowerBound, dif_neg h] at hi
    exact hpre i hi

/-- The search result either lands on an index with distance `≥ target`
or is the upper bound `high`. -/
lemma lowerBound_found (pts : List (TrackPoint α)) (target : α) :
    ∀ low high, low ≤ high →
      target ≤ dAt pts (lowerBound pts target low high) ∨
        lowerBound pts target low high = high := by
  intro low high
  induction low, high using lowerBound.induct pts target with
  | case1 low high h hlt ih =>
    intro _
    rw [lowerBound, dif_pos h, if_pos hlt]
    exact ih (by omega)
  | case2 low high h hlt ih =>
    intro _
    rw [lowerBound, dif_pos h, if_neg hlt]
    rcases ih (by omega) with hfound | heq
    · exact Or.inl hfound
    · left
      rw [heq]
      exact le_of_not_lt hlt
  | case3 low high h =>
    intro hlh
    rw [lowerBound, dif_neg h]
    right
    omega

/-- Non-strict monotonicity of distances from strict per-step increase. -/
lemma mono_of_strict (pts : List (TrackPoint α))
    (hs : ∀ i, i + 1 < pts.length → dAt pts i < dAt pts (i + 1)) :
    ∀ i j, i ≤ j → j < pts.length → dAt pts i ≤ dAt pts j := by
  intro i j hij hj
  induction j, hij using Nat.le_induction with
  | base => exact le_refl _
  | succ n hn ih =>
    have h1 : dAt pts i ≤ dAt pts n := ih (by omega)
    have h2 : dAt pts n < dAt pts (n + 1) := hs n hj
    linarith

/-! ### Boundary behaviour of the distance index -/

/-- Distance lookup at `0` returns the first point's position (sequence of
length ≥ 2 whose distances start at 0 and are non-decreasing). -/
lemma interp_at_zero (pts : List (TrackPoint α)) (hn : 2 ≤ pts.length)
    (h0 : dAt pts 0 = 0)
    (hm : ∀ i j, i ≤ j → j < pts.length → dAt pts i ≤ dAt pts j) :
    (interpolatePointAtDistance pts 0).lat = (getP pts 0).lat ∧
    (interpolatePointAtDistance pts 0).lon = (getP pts 0).lon ∧
    (interpolatePointAtDistance pts 0).index = 0 := by
  have hne0 : ¬(pts.length = 0) := by omega
  have hne1 : ¬(pts.length = 1) := by omega
  rw [interpolatePointAtDistance, if_neg hne0, if_neg hne1]
  simp only []
  have htarget : clamp (0:α) 0 (max (dAt pts (pts.length - 1)) 0) = 0 := by
    simp [clamp]
  rw [htarget]
  have hr : lowerBound pts 0 0 (pts.length - 1) = 0 := by
    by_contra hne
    have hbelow := lowerBound_below pts 0 hm 0 (pts.length - 1) (by omega) (by omega)
      (fun i hi => absurd hi (Nat.not_lt_zero i)) 0 (by omega)
    rw [h0] at hbelow
    exact lt_irrefl 0 hbelow
  rw [hr]
  have hright : min (max 0 1) (pts.length - 1) = 1 := by omega
  rw [hright]
  have h0' : (getP pts (1 - 1)).distanceFromStartM = 0 := h0
  rw [h0']
  have ht : clamp ((0 - 0) / max ((getP pts 1).distanceFromStartM - 0) (1/10000)) 0 1 = (0:α) := by
    simp [clamp]
  rw [ht, lerp_zero, lerp_zero]
  exact ⟨rfl, rfl, rfl⟩

/-- Distance lookup at the total length returns the last point's position,
provided distances increase strictly and the final segment spans at least the
interpolation epsilon `1e-4`. -/
lemma interp_at_total (pts : List (TrackPoint α)) (hn : 2 ≤ pts.length)
    (h0 : dAt pts 0 = 0)
    (hs : ∀ i, i + 1 < pts.length → dAt pts i < dAt pts (i + 1))
    (hgap : 1/10000 ≤ dAt pts (pts.length - 1) - dAt pts (pts.length - 1 - 1)) :
    (interpolatePointAtDistance pts (dAt pts (pts.length - 1))).lat =
      (getP pts (pts.length - 1)).lat ∧
    (interpolatePointAtDistance pts (dAt pts (pts.length - 1))).lon =
      (getP pts (pts.length - 1)).lon := by
  have hm := mono_of_strict pts hs
  have hne0 : ¬(pts.length = 0) := by omega
  have hne1 : ¬(pts.length = 1) := by omega
  have hL0 : (0:α) ≤ dAt pts (pts.length - 1) := by
    have := hm 0 (pts.length - 1) (by omega) (by omega)
    linarith [h0, this]
  rw [interpolatePointAtDistance, if_neg hne0, if_neg hne1]
  simp only []
  have htarget : clamp (dAt pts (pts.length - 1)) 0 (max (dAt pts (pts.length - 1)) 0) =
      dAt pts (pts.length - 1) := by
    rw [max_eq_left hL0]
    exact clamp_eq_self _ _ _ hL0 (le_refl _)
  rw [htarget]
  have hr : lowerBound pts (dAt pts (pts.length - 1)) 0 (pts.length - 1) = pts.length - 1 := by
    obtain ⟨hlo, hhi⟩ := lowerBound_bounds pts (dAt pts (pts.length - 1)) 0 (pts.length - 1)
      (by omega)
    rcases lowerBound_found pts (dAt pts (pts.length - 1)) 0 (pts.length - 1) (by omega) with
      hfound | heq
    · by_contra hne
      have hrlt : lowerBound pts (dAt pts (pts.length - 1)) 0 (pts.length - 1) ≤
          pts.length - 2 := by omega
      have h1 : dAt pts (lowerBound pts (dAt pts (pts.length - 1)) 0 (pts.length - 1)) ≤
          dAt pts (pts.length - 2) := hm _ _ hrlt (by omega)
      have h2 : dAt pts (pts.length - 2) < dAt pts (pts.length - 2 + 1) := hs _ (by omega)
      have h3 : pts.length - 2 + 1 = pts.length - 1 := by omega
      rw [h3] at h2
      linarith
    · exact heq
  rw [hr]
  have hright : min (max (pts.length - 1) 1) (pts.length - 1) = pts.length - 1 := by omega
  rw [hright]
  have hspan : max ((getP pts (pts.length - 1)).distanceFromStartM -
      (getP pts (pts.length - 1 - 1)).distanceFromStartM) (1/10000) =
      (getP pts (pts.length - 1)).distanceFromStartM -
        (getP pts (pts.length - 1 - 1)).distanceFromStartM :=
    max_eq_left hgap
  rw [hspan]
  have hgpos : (0:α) < (getP pts (pts.length - 1)).distanceFromStartM -
      (getP pts (pts.length - 1 - 1)).distanceFromStartM := by
    have : (1:α)/10000 ≤ _ := hgap
    calc (0:α) < 1/10000 := by norm_num
    _ ≤ _ := hgap
  have ht : clamp (((getP pts (pts.length - 1)).distanceFromStartM -
      (getP pts (pts.length - 1 - 1)).distanceFromStartM) /
      ((getP pts (pts.length - 1)).distanceFromStartM -
        (getP pts (pts.length - 1 - 1)).distanceFromStartM)) 0 1 = (1:α) := by
    rw [div_self (ne_of_gt hgpos)]
    exact clamp_eq_self _ _ _ (by norm_num) (by norm_num)
  have hsub : dAt pts (pts.length - 1) - (getP pts (pts.length - 1 - 1)).distanceFromStartM =
      (getP pts (pts.length - 1)).distanceFromStartM -
        (getP pts (pts.length - 1 - 1)).distanceFromStartM := rfl
  rw [hsub, ht, lerp_one, lerp_one]
  exact ⟨rfl, rfl⟩

/-- The segment index returned by the distance lookup brackets the (clamped)
target distance: `d[index] ≤ t ≤ d[index+1]`, with `index + 1 ≤ n - 1`. -/
lemma interp_index_bracket (pts : List (TrackPoint α)) (hn : 2 ≤ pts.length)
    (h0 : dAt pts 0 = 0)
    (hm : ∀ i j, i ≤ j → j < pts.length → dAt pts i ≤ dAt pts j)
    (t : α) (ht0 : 0 ≤ t) (htL : t ≤ dAt pts (pts.length - 1)) :
    dAt pts ((interpolatePointAtDistance pts t).index) ≤ t ∧
    t ≤ dAt pts ((interpolatePointAtDistance pts t).index + 1) ∧
    (interpolatePointAtDistance pts t).index + 1 ≤ pts.length - 1 := by
  have hne0 : ¬(pts.length = 0) := by omega
  have hne1 : ¬(pts.length = 1) := by omega
  have hL0 : (0:α) ≤ dAt pts (pts.length - 1) := le_trans ht0 htL
  have hidx : (interpolatePointAtDistance pts t).index =
      min (max (lowerBound pts t 0 (pts.length - 1)) 1) (pts.length - 1) - 1 := by
    rw [interpolatePointAtDistance, if_neg hne0, if_neg hne1]
    simp only []
    rw [max_eq_left hL0, clamp_eq_self _ _ _ ht0 htL]
  obtain ⟨hlo, hhi⟩ := lowerBound_bounds pts t 0 (pts.length - 1) (by omega)
  have hbelow := lowerBound_below pts t hm 0 (pts.length - 1) (by omega) (by omega)
    (fun i hi => absurd hi (Nat.not_lt_zero i))
  have hfound := lowerBound_found pts t 0 (pts.length - 1) (by omega)
  rcases Nat.eq_zero_or_pos (lowerBound pts t 0 (pts.length - 1)) with hz | hp
  · -- search hit index 0: target must be 0
    have ht0' : t ≤ 0 := by
      rcases hfound with hf | he
      · rw [hz, h0] at hf; exact hf
      · omega
    have hteq : t = 0 := le_antisymm ht0' ht0
    have hidx0 : (interpolatePointAtDistance pts t).index = 0 := by
      rw [hidx, hz]; omega
    rw [hidx0, hteq, h0]
    refine ⟨le_refl _, ?_, by omega⟩
    have := hm 0 1 (by omega) (by omega)
    rw [h0] at this
    simpa using this
  · -- search result ≥ 1
    have hidx1 : (interpolatePointAtDistance pts t).index =
        lowerBound pts t 0 (pts.length - 1) - 1 := by
      rw [hidx]; omega
    refine ⟨?_, ?_, by omega⟩
    · rw [hidx1]
      exact le_of_lt (hbelow _ (by omega))
    · rw [hidx1]
      have hplus : lowerBound pts t 0 (pts.length - 1) - 1 + 1 =
          lowerBound pts t 0 (pts.length - 1) := by omega
      rw [hplus]
      rcases hfound with hf | he
      · exact hf
      · rw [he]; exact htL

/-! ### Access lemmas for the resampler's mapped lists -/

lemma getP_range_map (g : ℕ → TrackPoint α) (n i : ℕ) (h : i < n) :
    getP ((List.range n).map g) i = g i := by
  rw [getP, List.getD_eq_getElem?_getD]
  simp [List.getElem?_map, List.getElem?_range, h]

lemma smoothPlaybackPoints_length (pts : List (TrackPoint α)) (r : ℕ) :
    (smoothPlaybackPoints pts r).length = pts.length := by
  rw [smoothPlaybackPoints]
  split
  · rfl
  · simp

lemma smoothedAt_endpoint (pts : List (TrackPoint α)) (r i : ℕ)
    (h : i = 0 ∨ i = pts.length - 1) :
    smoothedAt pts r i = getP pts i := by
  rw [smoothedAt]
  simp only []
  rw [if_pos h]

/-- Smoothing never moves the first point. -/
lemma smoothPlaybackPoints_first (pts : List (TrackPoint α)) (r : ℕ)
    (h : 1 ≤ pts.length) :
    getP (smoothPlaybackPoints pts r) 0 = getP pts 0 := by
  rw [smoothPlaybackPoints]
  split
  · rfl
  · rw [getP_range_map _ _ _ (by omega), smoothedAt_endpoint]
    exact Or.inl rfl

/-- Smoothing never moves the last point. -/
lemma smoothPlaybackPoints_last (pts : List (TrackPoint α)) (r : ℕ)
    (h : 1 ≤ pts.length) :
    getP (smoothPlaybackPoints pts r) (pts.length - 1) = getP pts (pts.length - 1) := by
  rw [smoothPlaybackPoints]
  split
  · rfl
  · rw [getP_range_map _ _ _ (by omega), smoothedAt_endpoint]
    exact Or.inr rfl

lemma buildPlaybackPoints_length_resample (pts : List (TrackPoint α)) (N : ℕ)
    (h2 : 2 < pts.length) (hN : N < pts.length) :
    (buildPlaybackPoints pts N).length = max 300 N := by
  rw [buildPlaybackPoints, if_neg (by push_neg; omega)]
  simp

/-- Element `i` of the resampled list, in the branch that actually resamples. -/
lemma getP_buildPlaybackPoints (pts : List (TrackPoint α)) (N i : ℕ)
    (h2 : 2 < pts.length) (hN : N < pts.length) (hi : i < max 300 N) :
    getP (buildPlaybackPoints pts N) i =
      ⟨(interpolatePointAtDistance pts
          (min (max (dAt pts (pts.length - 1)) 1)
            ((i : α) * (max (dAt pts (pts.length - 1)) 1 / (((max 300 N : ℕ) : α) - 1))))).lat,
       (interpolatePointAtDistance pts
          (min (max (dAt pts (pts.length - 1)) 1)
            ((i : α) * (max (dAt pts (pts.length - 1)) 1 / (((max 300 N : ℕ) : α) - 1))))).lon,
       (pts.getD (interpolatePointAtDistance pts
          (min (max (dAt pts (pts.length - 1)) 1)
            ((i : α) * (max (dAt pts (pts.length - 1)) 1 / (((max 300 N : ℕ) : α) - 1))))).index
          (getP pts 0)).ele,
       none,
       min (max (dAt pts (pts.length - 1)) 1)
         ((i : α) * (max (dAt pts (pts.length - 1)) 1 / (((max 300 N : ℕ) : α) - 1)))⟩ := by
  rw [buildPlaybackPoints, if_neg (by push_neg; omega)]
  simp only []
  rw [getP_range_map _ _ _ hi]

/-! ### C5: boundary interpolation -/

/-- C5 (amended): for a sequence of ≥2 points with strictly increasing
distances starting at 0, the distance lookup at 0 returns the first point's
position, and the lookup at the total length returns the last point's position
provided the final segment spans at least the interpolation epsilon `1e-4`
(the code divides by `max(span, 1e-4)`, so a shorter final segment
under-shoots). -/
theorem distance_index_boundary (pts : List (TrackPoint ℚ)) (hn : 2 ≤ pts.length)
    (h0 : dAt pts 0 = 0)
    (hs : ∀ i, i + 1 < pts.length → dAt pts i < dAt pts (i + 1)) :
    ((interpolatePointAtDistance pts 0).lat = (getP pts 0).lat ∧
      (interpolatePointAtDistance pts 0).lon = (getP pts 0).lon) ∧
    (1/10000 ≤ dAt pts (pts.length - 1) - dAt pts (pts.length - 1 - 1) →
      (interpolatePointAtDistance pts (dAt pts (pts.length - 1))).lat =
        (getP pts (pts.length - 1)).lat ∧
      (interpolatePointAtDistance pts (dAt pts (pts.length - 1))).lon =
        (getP pts (pts.length - 1)).lon) := by
  have hm := mono_of_strict pts hs
  obtain ⟨hlat, hlon, _⟩ := interp_at_zero pts hn h0 hm
  exact ⟨⟨hlat, hlon⟩, fun hgap => interp_at_total pts hn h0 hs hgap⟩

/-- Concrete 2-point sequence for the C5 witness. -/
def c5pts : List (TrackPoint ℚ) :=
  [⟨0, 0, none, none, 0⟩, ⟨1, 1, none, none, 100⟩]

/-- Witness for C5 on a concrete 2-point track. -/
theorem distance_index_boundary_witness :
    ((interpolatePointAtDistance c5pts 0).lat = (getP c5pts 0).lat ∧
      (interpolatePointAtDistance c5pts 0).lon = (getP c5pts 0).lon) ∧
    (1/10000 ≤ dAt c5pts (c5pts.length - 1) - dAt c5pts (c5pts.length - 1 - 1) →
      (interpolatePointAtDistance c5pts (dAt c5pts (c5pts.length - 1))).lat =
        (getP c5pts (c5pts.length - 1)).lat ∧
      (interpolatePointAtDistance c5pts (dAt c5pts (c5pts.length - 1))).lon =
        (getP c5pts (c5pts.length - 1)).lon) :=
  distance_index_boundary c5pts (by norm_num [c5pts]) (by norm_num [c5pts, dAt, getP])
    (by
      intro i hi
      have : i = 0 := by
        have : c5pts.length = 2 := by norm_num [c5pts]
        omega
      subst this
      norm_num [c5pts, dAt, getP])

/-- Concrete strictly-increasing-from-0 sequence whose final segment is
shorter than the `1e-4` epsilon floor. -/
def c5tiny : List (TrackPoint ℚ) :=
  [⟨0, 0, none, none, 0⟩, ⟨1, 1, none, none, 1/20000⟩]

/-- C5 counterexample: `c5tiny` is non-degenerate (2 points, distances
strictly increasing from 0), yet the lookup at its total length returns
`(1/2, 1/2)`, not the last point `(1, 1)`: the epsilon floor on the
interpolation denominator makes the lookup undershoot. -/
theorem distance_index_boundary_fails_on_tiny_gap :
    dAt c5tiny 0 = 0 ∧ dAt c5tiny 0 < dAt c5tiny 1 ∧ c5tiny.length = 2 ∧
    (interpolatePointAtDistance c5tiny (dAt c5tiny 1)).lat = 1/2 ∧
    (getP c5tiny 1).lat = 1 ∧ ((1:ℚ)/2) ≠ 1 := by
  have hd1 : dAt c5tiny 1 = 1/20000 := by norm_num [dAt, getP, c5tiny]
  have hlb : lowerBound c5tiny ((1:ℚ)/20000) 0 1 = 1 := by
    have h1 : dAt c5tiny ((0 + 1) / 2) < 1/20000 := by norm_num [dAt, getP, c5tiny]
    rw [lowerBound, dif_pos (by norm_num : (0:ℕ) < 1), if_pos h1, lowerBound,
      dif_neg (by norm_num : ¬((0 + 1) / 2 + 1 < 1))]
  have hinterp : interpolatePointAtDistance c5tiny ((1:ℚ)/20000) = ⟨1/2, 1/2, 0⟩ := by
    rw [interpolatePointAtDistance, if_neg (by norm_num [c5tiny]),
      if_neg (by norm_num [c5tiny])]
    simp only []
    have hlen : c5tiny.length - 1 = 1 := by norm_num [c5tiny]
    rw [hlen, hd1]
    have htgt : clamp ((1:ℚ)/20000) 0 (max (1/20000) 0) = 1/20000 :=
      clamp_eq_self _ _ _ (by norm_num) (by rw [max_eq_left (by norm_num : (0:ℚ) ≤ 1/20000)])
    rw [htgt, hlb]
    norm_num [clamp, lerp, getP, c5tiny, max_def, min_def]
  refine ⟨by norm_num [c5tiny, dAt, getP], by norm_num [c5tiny, dAt, getP],
    by norm_num [c5tiny], ?_, by norm_num [c5tiny, getP], by norm_num⟩
  rw [hd1, hinterp]

/-! ### C4: resampler guarantees -/

/-- C4 (amended): for inputs whose distances increase strictly from 0, whose
final segment spans at least the `1e-4` interpolation epsilon and whose total
length is at least 1 m, the resampler's output has length ≤ max(N,300),
preserves the first and last positions exactly, and its final
`distanceFromStartM` equals the input's total length. -/
theorem resampler_guarantees (pts : List (TrackPoint ℚ)) (N : ℕ)
    (hn : 2 ≤ pts.length) (h0 : dAt pts 0 = 0)
    (hs : ∀ i, i + 1 < pts.length → dAt pts i < dAt pts (i + 1))
    (hgap : 1/10000 ≤ dAt pts (pts.length - 1) - dAt pts (pts.length - 1 - 1))
    (hL : 1 ≤ dAt pts (pts.length - 1)) :
    (resampleTrack pts N).length ≤ max N 300 ∧
    (getP (resampleTrack pts N) 0).lat = (getP pts 0).lat ∧
    (getP (resampleTrack pts N) 0).lon = (getP pts 0).lon ∧
    (getP (resampleTrack pts N) ((resampleTrack pts N).length - 1)).lat =
      (getP pts (pts.length - 1)).lat ∧
    (getP (resampleTrack pts N) ((resampleTrack pts N).length - 1)).lon =
      (getP pts (pts.length - 1)).lon ∧
    (getP (resampleTrack pts N) ((resampleTrack pts N).length - 1)).distanceFromStartM =
      dAt pts (pts.length - 1) := by
  have hm := mono_of_strict pts hs
  by_cases hcase : pts.length ≤ 2 ∨ pts.length ≤ N
  · -- pass-through branch: the input is returned (then smoothed, endpoints fixed)
    have hbuild : buildPlaybackPoints pts N = pts := by
      rw [buildPlaybackPoints, if_pos hcase]
    have hlen : (resampleTrack pts N).length = pts.length := by
      rw [resampleTrack, hbuild, smoothPlaybackPoints_length]
    have hf : getP (resampleTrack pts N) 0 = getP pts 0 := by
      rw [resampleTrack, hbuild]
      exact smoothPlaybackPoints_first pts 2 (by omega)
    have hl : getP (resampleTrack pts N) ((resampleTrack pts N).length - 1) =
        getP pts (pts.length - 1) := by
      rw [hlen, resampleTrack, hbuild]
      exact smoothPlaybackPoints_last pts 2 (by omega)
    exact ⟨by rw [hlen]; omega, by rw [hf], by rw [hf], by rw [hl], by rw [hl],
      by rw [hl]; rfl⟩
  · push_neg at hcase
    obtain ⟨h2, hN⟩ := hcase
    have hK : 300 ≤ max 300 N := le_max_left _ _
    have hbl : (buildPlaybackPoints pts N).length = max 300 N :=
      buildPlaybackPoints_length_resample pts N h2 hN
    have hlen : (resampleTrack pts N).length = max 300 N := by
      rw [resampleTrack, smoothPlaybackPoints_length, hbl]
    have hLpos : (0:ℚ) ≤ dAt pts (pts.length - 1) := by linarith
    have htot : max (dAt pts (pts.length - 1)) 1 = dAt pts (pts.length - 1) := max_eq_left hL
    -- first output point
    have hfirst : getP (resampleTrack pts N) 0 = getP (buildPlaybackPoints pts N) 0 := by
      rw [resampleTrack]
      exact smoothPlaybackPoints_first _ 2 (by rw [hbl]; omega)
    have hb0 := getP_buildPlaybackPoints pts N 0 h2 hN (by omega)
    have ht0 : min (max (dAt pts (pts.length - 1)) 1)
        (((0:ℕ) : ℚ) * (max (dAt pts (pts.length - 1)) 1 / (((max 300 N : ℕ) : ℚ) - 1))) =
        0 := by
      rw [htot]
      push_cast
      rw [zero_mul]
      exact min_eq_right hLpos
    rw [ht0] at hb0
    obtain ⟨hz1, hz2, _⟩ := interp_at_zero pts hn h0 hm
    -- last output point
    have hlast : getP (resampleTrack pts N) ((resampleTrack pts N).length - 1) =
        getP (buildPlaybackPoints pts N) (max 300 N - 1) := by
      rw [hlen, resampleTrack]
      have h := smoothPlaybackPoints_last (buildPlaybackPoints pts N) 2 (by rw [hbl]; omega)
      rw [hbl] at h
      exact h
    have hbK := getP_buildPlaybackPoints pts N (max 300 N - 1) h2 hN (by omega)
    have hcast : ((max 300 N - 1 : ℕ) : ℚ) = ((max 300 N : ℕ) : ℚ) - 1 := by
      have h1 : 1 ≤ max 300 N := by omega
      push_cast [Nat.cast_sub h1]
      ring
    have hdenom : ((max 300 N : ℕ) : ℚ) - 1 ≠ 0 := by
      have : (300:ℚ) ≤ ((max 300 N : ℕ) : ℚ) := by exact_mod_cast hK
      linarith
    have htK : min (max (dAt pts (pts.length - 1)) 1)
        (((max 300 N - 1 : ℕ) : ℚ) *
          (max (dAt pts (pts.length - 1)) 1 / (((max 300 N : ℕ) : ℚ) - 1))) =
        dAt pts (pts.length - 1) := by
      rw [htot, hcast, mul_div_assoc', mul_comm, mul_div_assoc,
        div_self hdenom, mul_one, min_self]
    rw [htK] at hbK
    obtain ⟨hT1, hT2⟩ := interp_at_total pts hn h0 hs hgap
    refine ⟨by rw [hlen]; omega, ?_, ?_, ?_, ?_, ?_⟩
    · rw [hfirst, hb0]; exact hz1
    · rw [hfirst, hb0]; exact hz2
    · rw [hlast, hbK]; exact hT1
    · rw [hlast, hbK]; exact hT2
    · rw [hlast, hbK]

/-- Concrete 4-point strictly increasing track for the C4 witness. -/
def c4pts : List (TrackPoint ℚ) :=
  [⟨0, 0, none, none, 0⟩, ⟨1, 1, none, none, 100⟩,
   ⟨5, 5, none, none, 200⟩, ⟨9, 9, none, none, 300⟩]

/-- Witness for C4 with cap `N = 3` (which triggers actual resampling). -/
theorem resampler_guarantees_witness :
    (resampleTrack c4pts 3).length ≤ max 3 300 ∧
    (getP (resampleTrack c4pts 3) 0).lat = (getP c4pts 0).lat ∧
    (getP (resampleTrack c4pts 3) 0).lon = (getP c4pts 0).lon ∧
    (getP (resampleTrack c4pts 3) ((resampleTrack c4pts 3).length - 1)).lat =
      (getP c4pts (c4pts.length - 1)).lat ∧
    (getP (resampleTrack c4pts 3) ((resampleTrack c4pts 3).length - 1)).lon =
      (getP c4pts (c4pts.length - 1)).lon ∧
    (getP (resampleTrack c4pts 3) ((resampleTrack c4pts 3).length - 1)).distanceFromStartM =
      dAt c4pts (c4pts.length - 1) :=
  resampler_guarantees c4pts 3 (by norm_num [c4pts]) (by norm_num [dAt, getP, c4pts])
    (by
      intro i hi
      have hlen : c4pts.length = 4 := by norm_num [c4pts]
      rw [hlen] at hi
      have hi' : i < 3 := by omega
      interval_cases i <;> norm_num [dAt, getP, c4pts])
    (by norm_num [dAt, getP, c4pts]) (by norm_num [dAt, getP, c4pts])

/-- Non-decreasing (but not strictly increasing) input: the last two samples
share `distanceFromStartM = 200` while sitting at different positions. -/
def c4dup : List (TrackPoint ℚ) :=
  [⟨0, 0, none, none, 0⟩, ⟨1, 1, none, none, 100⟩,
   ⟨5, 5, none, none, 200⟩, ⟨9, 9, none, none, 200⟩]

/-- C4 counterexample: `c4dup` has non-decreasing distances starting at 0 (the
claim's hypothesis), yet the resampled output's final position is `(5,5)` — the
point where the distance 200 is first reached — not the input's last position
`(9,9)`. -/
theorem resampler_last_point_not_preserved :
    dAt c4dup 0 = 0 ∧ dAt c4dup 0 ≤ dAt c4dup 1 ∧ dAt c4dup 1 ≤ dAt c4dup 2 ∧
    dAt c4dup 2 ≤ dAt c4dup 3 ∧ c4dup.length = 4 ∧
    (getP (resampleTrack c4dup 3) ((resampleTrack c4dup 3).length - 1)).lat = 5 ∧
    (getP c4dup 3).lat = 9 ∧ ((5:ℚ) ≠ 9) := by
  have h2 : 2 < c4dup.length := by norm_num [c4dup]
  have hN : 3 < c4dup.length := by norm_num [c4dup]
  have hmax : max 300 3 = 300 := by norm_num
  have hbl : (buildPlaybackPoints c4dup 3).length = 300 := by
    rw [buildPlaybackPoints_length_resample c4dup 3 h2 hN, hmax]
  have hlen : (resampleTrack c4dup 3).length = 300 := by
    rw [resampleTrack, smoothPlaybackPoints_length, hbl]
  have hlb : lowerBound c4dup (200:ℚ) 0 3 = 2 := by
    rw [lowerBound, dif_pos (by norm_num : (0:ℕ) < 3),
      if_pos (show dAt c4dup ((0 + 3) / 2) < 200 by norm_num [dAt, getP, c4dup]),
      lowerBound, dif_pos (by norm_num : ((0 + 3) / 2 + 1 : ℕ) < 3),
      if_neg (show ¬dAt c4dup (((0 + 3) / 2 + 1 + 3) / 2) < 200 by
        norm_num [dAt, getP, c4dup]),
      lowerBound, dif_neg (by norm_num : ¬((0 + 3) / 2 + 1 < ((0 + 3) / 2 + 1 + 3) / 2))]
  have hinterp : interpolatePointAtDistance c4dup (200:ℚ) = ⟨5, 5, 1⟩ := by
    rw [interpolatePointAtDistance, if_neg (by norm_num [c4dup]),
      if_neg (by norm_num [c4dup])]
    simp only []
    rw [show c4dup.length - 1 = 3 by norm_num [c4dup],
      show dAt c4dup 3 = (200:ℚ) by norm_num [dAt, getP, c4dup],
      show max (200:ℚ) 0 = 200 from max_eq_left (by norm_num),
      clamp_eq_self _ _ _ (by norm_num) (by norm_num), hlb,
      show min (max 2 1) 3 = 2 by omega]
    norm_num [clamp, lerp, getP, c4dup, max_def, min_def]
  have hlast : getP (resampleTrack c4dup 3) 299 = getP (buildPlaybackPoints c4dup 3) 299 := by
    have h := smoothPlaybackPoints_last (buildPlaybackPoints c4dup 3) 2 (by rw [hbl]; omega)
    rw [hbl] at h
    rw [resampleTrack]
    exact h
  have hbK := getP_buildPlaybackPoints c4dup 3 299 h2 hN (by omega)
  have htarget : min (max (dAt c4dup (c4dup.length - 1)) 1)
      (((299:ℕ) : ℚ) * (max (dAt c4dup (c4dup.length - 1)) 1 / (((max 300 3 : ℕ) : ℚ) - 1))) =
      (200:ℚ) := by
    rw [show c4dup.length - 1 = 3 by norm_num [c4dup],
      show dAt c4dup 3 = (200:ℚ) by norm_num [dAt, getP, c4dup],
      show max (200:ℚ) 1 = 200 from max_eq_left (by norm_num), hmax]
    norm_num
  rw [htarget, hinterp] at hbK
  refine ⟨by norm_num [dAt, getP, c4dup], by norm_num [dAt, getP, c4dup],
    by norm_num [dAt, getP, c4dup], by norm_num [dAt, getP, c4dup],
    by norm_num [c4dup], ?_, by norm_num [getP, c4dup], by norm_num⟩
  rw [hlen, show (300:ℕ) - 1 = 299 by omega, hlast, hbK]

/-! ### C8: resampled elevation and timestamp -/

lemma getD_eq_getP (pts : List (TrackPoint α)) (i : ℕ) (d : TrackPoint α)
    (h : i < pts.length) : pts.getD i d = getP pts i := by
  rw [getP, List.getD_eq_getElem?_getD, List.getD_eq_getElem?_getD,
    List.getElem?_eq_getElem h]
  rfl

/-- C8 (amended): every point produced by the resampling branch has a `none`
timestamp, and its elevation is copied from the original sample at the **left**
end of the segment bracketing the target distance (`points[interp.index]`,
whose distance is ≤ the target, the segment's right end being ≥ the target) —
not from the nearest original sample. -/
theorem resample_ele_time (pts : List (TrackPoint ℚ)) (N i : ℕ)
    (h2 : 2 < pts.length) (hN : N < pts.length)
    (h0 : dAt pts 0 = 0)
    (hs : ∀ j, j + 1 < pts.length → dAt pts j < dAt pts (j + 1))
    (hL : 1 ≤ dAt pts (pts.length - 1))
    (hi : i < max 300 N) :
    (getP (buildPlaybackPoints pts N) i).time = none ∧
    (getP (buildPlaybackPoints pts N) i).ele =
      (getP pts ((interpolatePointAtDistance pts
        ((getP (buildPlaybackPoints pts N) i).distanceFromStartM)).index)).ele ∧
    dAt pts ((interpolatePointAtDistance pts
        ((getP (buildPlaybackPoints pts N) i).distanceFromStartM)).index) ≤
      (getP (buildPlaybackPoints pts N) i).distanceFromStartM ∧
    (getP (buildPlaybackPoints pts N) i).distanceFromStartM ≤
      dAt pts ((interpolatePointAtDistance pts
        ((getP (buildPlaybackPoints pts N) i).distanceFromStartM)).index + 1) := by
  have hm := mono_of_strict pts hs
  have hb := getP_buildPlaybackPoints pts N i h2 hN hi
  have htot : max (dAt pts (pts.length - 1)) 1 = dAt pts (pts.length - 1) := max_eq_left hL
  rw [htot] at hb
  have hLpos : (0:ℚ) ≤ dAt pts (pts.length - 1) := by linarith
  have hdenom : (0:ℚ) < ((max 300 N : ℕ) : ℚ) - 1 := by
    have h300 : (300:ℚ) ≤ ((max 300 N : ℕ) : ℚ) := by
      exact_mod_cast le_max_left 300 N
    linarith
  set t : ℚ := min (dAt pts (pts.length - 1))
    ((i : ℚ) * (dAt pts (pts.length - 1) / (((max 300 N : ℕ) : ℚ) - 1))) with hht
  have ht0 : 0 ≤ t := by
    rw [hht]
    apply le_min hLpos
    apply mul_nonneg (Nat.cast_nonneg i)
    exact div_nonneg hLpos hdenom.le
  have htL : t ≤ dAt pts (pts.length - 1) := min_le_left _ _
  obtain ⟨hbr1, hbr2, hbr3⟩ := interp_index_bracket pts (by omega) h0 hm t ht0 htL
  have hidx : (interpolatePointAtDistance pts t).index < pts.length := by omega
  rw [hb]
  simp only []
  exact ⟨trivial, by rw [getD_eq_getP pts _ _ hidx], hbr1, hbr2⟩

/-- Concrete input for C8: four samples with elevations 10, 20, 30, 40 at
distances 0, 10, 20, 299. -/
def c8pts : List (TrackPoint ℚ) :=
  [⟨0, 0, some 10, none, 0⟩, ⟨1, 1, some 20, none, 10⟩,
   ⟨2, 2, some 30, none, 20⟩, ⟨3, 3, some 40, none, 299⟩]

/-- Witness for C8 at sample index 9 of the resampled `c8pts` with cap 3. -/
theorem resample_ele_time_witness :
    (getP (buildPlaybackPoints c8pts 3) 9).time = none ∧
    (getP (buildPlaybackPoints c8pts 3) 9).ele =
      (getP c8pts ((interpolatePointAtDistance c8pts
        ((getP (buildPlaybackPoints c8pts 3) 9).distanceFromStartM)).index)).ele ∧
    dAt c8pts ((interpolatePointAtDistance c8pts
        ((getP (buildPlaybackPoints c8pts 3) 9).distanceFromStartM)).index) ≤
      (getP (buildPlaybackPoints c8pts 3) 9).distanceFromStartM ∧
    (getP (buildPlaybackPoints c8pts 3) 9).distanceFromStartM ≤
      dAt c8pts ((interpolatePointAtDistance c8pts
        ((getP (buildPlaybackPoints c8pts 3) 9).distanceFromStartM)).index + 1) :=
  resample_ele_time c8pts 3 9 (by norm_num [c8pts]) (by norm_num [c8pts])
    (by norm_num [dAt, getP, c8pts])
    (by
      intro j hj
      have hlen : c8pts.length = 4 := by norm_num [c8pts]
      rw [hlen] at hj
      have hj' : j < 3 := by omega
      interval_cases j <;> norm_num [dAt, getP, c8pts])
    (by norm_num [dAt, getP, c8pts]) (by norm_num)

/-- C8 counterexample: resampling `c8pts` with cap 3 samples a point at target
distance 9; the original sample nearest to distance 9 is index 1 (distance 10,
elevation 20), strictly nearer than every other sample, yet the output point's
elevation is 10 — copied from the left bracketing sample (index 0), not the
nearest one. -/
theorem resample_ele_not_nearest :
    (getP (buildPlaybackPoints c8pts 3) 9).distanceFromStartM = 9 ∧
    (getP (buildPlaybackPoints c8pts 3) 9).ele = some 10 ∧
    |dAt c8pts 1 - 9| < |dAt c8pts 0 - 9| ∧
    |dAt c8pts 1 - 9| < |dAt c8pts 2 - 9| ∧
    |dAt c8pts 1 - 9| < |dAt c8pts 3 - 9| ∧
    (getP c8pts 1).ele = some 20 ∧ (some (10:ℚ) ≠ some 20) := by
  have h2 : 2 < c8pts.length := by norm_num [c8pts]
  have hN : 3 < c8pts.length := by norm_num [c8pts]
  have hlb : lowerBound c8pts (9:ℚ) 0 3 = 1 := by
    rw [lowerBound, dif_pos (by norm_num : (0:ℕ) < 3),
      if_neg (show ¬dAt c8pts ((0 + 3) / 2) < 9 by norm_num [dAt, getP, c8pts]),
      lowerBound, dif_pos (by norm_num : (0:ℕ) < (0 + 3) / 2),
      if_pos (show dAt c8pts ((0 + (0 + 3) / 2) / 2) < 9 by norm_num [dAt, getP, c8pts]),
      lowerBound, dif_neg (by norm_num : ¬((0 + (0 + 3) / 2) / 2 + 1 < (0 + 3) / 2))]
  have hinterp : interpolatePointAtDistance c8pts (9:ℚ) = ⟨9/10, 9/10, 0⟩ := by
    rw [interpolatePointAtDistance, if_neg (by norm_num [c8pts]),
      if_neg (by norm_num [c8pts])]
    simp only []
    rw [show c8pts.length - 1 = 3 by norm_num [c8pts],
      show dAt c8pts 3 = (299:ℚ) by norm_num [dAt, getP, c8pts],
      show max (299:ℚ) 0 = 299 from max_eq_left (by norm_num),
      clamp_eq_self _ _ _ (by norm_num) (by norm_num), hlb,
      show min (max 1 1) 3 = 1 by omega]
    norm_num [clamp, lerp, getP, c8pts, max_def, min_def]
  have hb := getP_buildPlaybackPoints c8pts 3 9 h2 hN (by norm_num)
  have htarget : min (max (dAt c8pts (c8pts.length - 1)) 1)
      (((9:ℕ) : ℚ) * (max (dAt c8pts (c8pts.length - 1)) 1 / (((max 300 3 : ℕ) : ℚ) - 1))) =
      (9:ℚ) := by
    rw [show c8pts.length - 1 = 3 by norm_num [c8pts],
      show dAt c8pts 3 = (299:ℚ) by norm_num [dAt, getP, c8pts],
      show max (299:ℚ) 1 = 299 from max_eq_left (by norm_num),
      show ((max 300 3 : ℕ) : ℚ) = 300 by norm_num]
    norm_num
  rw [htarget, hinterp] at hb
  rw [hb]
  simp only []
  refine ⟨trivial, ?_, ?_, ?_, ?_, by norm_num [getP, c8pts], by norm_num⟩
  · norm_num [getP, c8pts]
  · norm_num [dAt, getP, c8pts]
  · norm_num [dAt, getP, c8pts]
  · norm_num [dAt, getP, c8pts]

/-! ### C9: route reveal overlay -/

/-- The scan loop of `drawRouteOverlay` (`App.tsx` lines 1006-1020): emit
`[lon, lat]` for every point within the reveal distance; at the first point
beyond it, emit the partial-segment interpolation against the previous point
(if any) and stop. -/
def revealAux (reveal : α) : Option (TrackPoint α) → List (TrackPoint α) → List (α × α)
  | _, [] => []
  | prev, p :: rest =>
    if p.distanceFromStartM ≤ reveal then
      (p.lon, p.lat) :: revealAux reveal (some p) rest
    else
      match prev with
      | some q =>
          [(lerp q.lon p.lon
              (clamp ((reveal - q.distanceFromStartM) /
                max (p.distanceFromStartM - q.distanceFromStartM) (1/10000)) 0 1),
            lerp q.lat p.lat
              (clamp ((reveal - q.distanceFromStartM) /
                max (p.distanceFromStartM - q.distanceFromStartM) (1/10000)) 0 1))]
      | none => []

/-- `App.tsx` lines 1003-1030: the revealed coordinate list — the scanned
prefix, extended by the Distance-Index head exactly when the scan's last
coordinate differs from it. -/
def revealCoords (pts : List (TrackPoint α)) (progressValue : α) : List (α × α) :=
  let totalDistance := max (dAt pts (pts.length - 1)) 1
  let revealDistance := clamp progressValue 0 1 * totalDistance
  let scan := revealAux revealDistance none pts
  let head := interpolatePointAtDistance pts revealDistance
  match scan.getLast? with
  | none => [(head.lon, head.lat)]
  | some last =>
      if last.1 ≠ head.lon ∨ last.2 ≠ head.lat then scan ++ [(head.lon, head.lat)]
      else scan

/-- C9 (amended): for every playback sequence and progress value the revealed
coordinate list is non-empty and ends exactly at the Distance-Index head
position. (The no-duplicate half of the claim fails; see the counterexample.) -/
theorem reveal_ends_at_head (pts : List (TrackPoint ℚ)) (progressValue : ℚ) :
    (revealCoords pts progressValue).getLast? =
      some ((interpolatePointAtDistance pts
              (clamp progressValue 0 1 * max (dAt pts (pts.length - 1)) 1)).lon,
            (interpolatePointAtDistance pts
              (clamp progressValue 0 1 * max (dAt pts (pts.length - 1)) 1)).lat) := by
  rw [revealCoords]
  set reveal : ℚ := clamp progressValue 0 1 * max (dAt pts (pts.length - 1)) 1 with hrev
  set scan := revealAux reveal none pts with hscan
  set head := interpolatePointAtDistance pts reveal with hhead
  cases hlast : scan.getLast? with
  | none => simp
  | some last =>
    dsimp only []
    by_cases hne : last.1 ≠ head.lon ∨ last.2 ≠ head.lat
    · rw [if_pos hne]
      simp
    · rw [if_neg hne]
      push_neg at hne
      obtain ⟨h1, h2⟩ := hne
      rw [hlast]
      cases last with
      | mk a b => simp only [] at h1 h2; rw [h1, h2]

/-- Concrete 3-point sequence for the C9 counterexample. -/
def c9pts : List (TrackPoint ℚ) :=
  [⟨0, 0, none, none, 0⟩, ⟨1, 1, none, none, 100⟩, ⟨2, 2, none, none, 200⟩]

/-- C9 counterexample: at progress 1/2 the reveal distance (100) coincides with
the middle sample's distance; the scan emits the middle point and then a
degenerate partial-segment point equal to it, so the head coordinate `(1,1)`
appears twice in a row at the end of the list — contradicting the claim that
the head never appears twice in a row. -/
theorem reveal_head_duplicated :
    revealCoords c9pts (1/2) = [((0:ℚ), (0:ℚ)), (1, 1), (1, 1)] ∧
    (interpolatePointAtDistance c9pts
        (clamp (1/2) 0 1 * max (dAt c9pts (c9pts.length - 1)) 1)).lon = 1 ∧
    (interpolatePointAtDistance c9pts
        (clamp (1/2) 0 1 * max (dAt c9pts (c9pts.length - 1)) 1)).lat = 1 := by
  have hrev : clamp ((1:ℚ)/2) 0 1 * max (dAt c9pts (c9pts.length - 1)) 1 = 100 := by
    rw [show c9pts.length - 1 = 2 by norm_num [c9pts],
      show dAt c9pts 2 = (200:ℚ) by norm_num [dAt, getP, c9pts],
      show max (200:ℚ) 1 = 200 from max_eq_left (by norm_num),
      clamp_eq_self _ _ _ (by norm_num) (by norm_num)]
    norm_num
  have hlb : lowerBound c9pts (100:ℚ) 0 2 = 1 := by
    rw [lowerBound, dif_pos (by norm_num : (0:ℕ) < 2),
      if_neg (show ¬dAt c9pts ((0 + 2) / 2) < 100 by norm_num [dAt, getP, c9pts]),
      lowerBound, dif_pos (by norm_num : (0:ℕ) < (0 + 2) / 2),
      if_pos (show dAt c9pts ((0 + (0 + 2) / 2) / 2) < 100 by norm_num [dAt, getP, c9pts]),
      lowerBound, dif_neg (by norm_num : ¬((0 + (0 + 2) / 2) / 2 + 1 < (0 + 2) / 2))]
  have hinterp : interpolatePointAtDistance c9pts (100:ℚ) = ⟨1, 1, 0⟩ := by
    rw [interpolatePointAtDistance, if_neg (by norm_num [c9pts]),
      if_neg (by norm_num [c9pts])]
    simp only []
    rw [show c9pts.length - 1 = 2 by norm_num [c9pts],
      show dAt c9pts 2 = (200:ℚ) by norm_num [dAt, getP, c9pts],
      show max (200:ℚ) 0 = 200 from max_eq_left (by norm_num),
      clamp_eq_self _ _ _ (by norm_num) (by norm_num), hlb,
      show min (max 1 1) 2 = 1 by omega]
    norm_num [clamp, lerp, getP, c9pts, max_def, min_def]
  have hscan : revealAux (100:ℚ) none c9pts = [(0, 0), (1, 1), (1, 1)] := by
    rw [c9pts]
    rw [revealAux, if_pos (by norm_num : (0:ℚ) ≤ 100)]
    rw [revealAux, if_pos (by norm_num : (100:ℚ) ≤ 100)]
    rw [revealAux, if_neg (by norm_num : ¬(200:ℚ) ≤ 100)]
    norm_num [clamp, lerp, max_def, min_def]
  rw [revealCoords]
  rw [hrev, hinterp, hscan]
  norm_num

/-! ### C10: user zoom offset -/

/-- `App.tsx` lines 1519-1521: `onZoomIn` sets `clamp(prev + 0.2, -1.5, 1.5)`. -/
def onZoomIn (z : α) : α := clamp (z + 1/5) (-(3/2)) (3/2)

/-- `App.tsx` lines 1523-1525: `onZoomOut` sets `clamp(prev - 0.2, -1.5, 1.5)`. -/
def onZoomOut (z : α) : α := clamp (z - 1/5) (-(3/2)) (3/2)

/-- The zoom offset after a sequence of zoom-in (`true`) / zoom-out (`false`)
commands, starting from the initial `useState(0)`. -/
def zoomOffsetAfter (ops : List Bool) : α :=
  ops.foldl (fun z b => if b then onZoomIn z else onZoomOut z) 0

lemma zoomOffset_fold_mem :
    ∀ (ops : List Bool) (z : α), -(3/2) ≤ z → z ≤ 3/2 →
      -(3/2) ≤ ops.foldl (fun z b => if b then onZoomIn z else onZoomOut z) z ∧
      ops.foldl (fun z b => if b then onZoomIn z else onZoomOut z) z ≤ 3/2 := by
  intro ops
  induction ops with
  | nil => exact fun z h1 h2 => ⟨h1, h2⟩
  | cons b rest ih =>
    intro z h1 h2
    rw [List.foldl_cons]
    apply ih
    · cases b <;> simp only [onZoomIn, onZoomOut] <;>
        exact le_clamp _ _ _ (by norm_num)
    · cases b <;> simp only [onZoomIn, onZoomOut] <;> exact clamp_le _ _ _

/-- C10: the user zoom offset starts at 0, each zoom command moves it by the
clamped `±0.2` step (never more than 0.2 while it is in range), and after any
command sequence it stays inside `[-1.5, 1.5]`, so the desired-zoom clamp
always receives a bounded offset. -/
theorem zoom_offset_bounded :
    zoomOffsetAfter ([] : List Bool) = (0:ℚ) ∧
    (∀ ops : List Bool, -(3/2) ≤ (zoomOffsetAfter ops : ℚ) ∧ (zoomOffsetAfter ops : ℚ) ≤ 3/2) ∧
    (∀ z : ℚ, -(3/2) ≤ z → z ≤ 3/2 → |onZoomIn z - z| ≤ 1/5 ∧ |onZoomOut z - z| ≤ 1/5) ∧
    (∀ z : ℚ, onZoomIn z = clamp (z + 1/5) (-(3/2)) (3/2) ∧
      onZoomOut z = clamp (z - 1/5) (-(3/2)) (3/2)) := by
  refine ⟨rfl, fun ops => zoomOffset_fold_mem ops 0 (by norm_num) (by norm_num),
    fun z h1 h2 => ⟨?_, ?_⟩, fun z => ⟨rfl, rfl⟩⟩
  · rw [onZoomIn, clamp, max_eq_left (by linarith : -(3/2) ≤ z + 1/5)]
    rcases le_total (z + 1/5) (3/2) with h | h
    · rw [min_eq_left h]
      rw [abs_le]
      constructor <;> linarith
    · rw [min_eq_right h]
      rw [abs_le]
      constructor <;> linarith
  · rw [onZoomOut, clamp]
    rcases le_total (z - 1/5) (-(3/2)) with h | h
    · rw [max_eq_right h, min_eq_left (by linarith : -(3/2) ≤ (3/2:ℚ))]
      rw [abs_le]
      constructor <;> linarith
    · rw [max_eq_left h, min_eq_left (by linarith : z - 1/5 ≤ (3/2:ℚ))]
      rw [abs_le]
      constructor <;> linarith

/-- Witness for C10 on the command sequence in-in-out and at `z = 7/5`. -/
theorem zoom_offset_bounded_witness :
    (-(3/2) ≤ (zoomOffsetAfter [true, true, false] : ℚ) ∧
      (zoomOffsetAfter [true, true, false] : ℚ) ≤ 3/2) ∧
    (|onZoomIn (7/5 : ℚ) - 7/5| ≤ 1/5 ∧ |onZoomOut (7/5 : ℚ) - 7/5| ≤ 1/5) :=
  ⟨zoom_offset_bounded.2.1 [true, true, false],
   zoom_offset_bounded.2.2.1 (7/5) (by norm_num) (by norm_num)⟩

/-! ### C1: progress clamping and NaN -/

/-- `Math.max`: returns NaN (`none`) if either argument is NaN. -/
def jsMaxNum : Option ℚ → Option ℚ → Option ℚ
  | some a, some b => some (max a b)
  | _, _ => none

/-- `Math.min`: returns NaN (`none`) if either argument is NaN. -/
def jsMinNum : Option ℚ → Option ℚ → Option ℚ
  | some a, some b => some (min a b)
  | _, _ => none

/-- `clamp` (`App.tsx` line 710) in NaN-propagating JS semantics:
`Math.min(Math.max(value, min), max)`. -/
def jsClampNum (v lo hi : Option ℚ) : Option ℚ := jsMinNum (jsMaxNum v lo) hi

/-- JS multiplication: NaN if either factor is NaN. -/
def jsMulNum : Option ℚ → Option ℚ → Option ℚ
  | some a, some b => some (a * b)
  | _, _ => none

/-- `App.tsx` lines 1280-1281: the camera target distance
`clamp(value, 0, 1) * Math.max(last.distanceFromStartM, 1)` in JS semantics. -/
def targetDistanceJs (value : Option ℚ) (pts : List (TrackPoint ℚ)) : Option ℚ :=
  jsMulNum (jsClampNum value (some 0) (some 1))
    (some (max (dAt pts (pts.length - 1)) 1))

/-- C1 (amended): every finite progress value is clamped into `[0,1]` and the
camera's target distance equals `clamp(progress,0,1) * totalDistance`; no error
is ever raised. (NaN, however, is **not** clamped — see the counterexample.) -/
theorem progress_clamped_finite (q : ℚ) (pts : List (TrackPoint ℚ)) :
    jsClampNum (some q) (some 0) (some 1) = some (clamp q 0 1) ∧
    0 ≤ clamp q 0 1 ∧ clamp q 0 1 ≤ 1 ∧
    targetDistanceJs (some q) pts =
      some (clamp q 0 1 * max (dAt pts (pts.length - 1)) 1) :=
  ⟨rfl, le_clamp _ _ _ (by norm_num), clamp_le _ _ _, rfl⟩

/-- Concrete 2-point track for the C1 counterexample. -/
def c1pts : List (TrackPoint ℚ) :=
  [⟨0, 0, none, none, 0⟩, ⟨1, 1, none, none, 100⟩]

/-- C1 counterexample: `Math.min`/`Math.max` propagate NaN, so a NaN progress
value is **not** clamped into `[0,1]` — `clamp(NaN,0,1) = NaN` — and the NaN
propagates into the camera's target distance instead of being replaced by a
value in range. -/
theorem nan_progress_not_clamped :
    jsClampNum none (some 0) (some 1) = none ∧
    targetDistanceJs none c1pts = none :=
  ⟨rfl, rfl⟩

/-! ## The real-valued camera engine -/

/-- `App.tsx` line 714: degrees → radians. -/
noncomputable def toRad (deg : ℝ) : ℝ := deg * Real.pi / 180

/-- `App.tsx` line 715: radians → degrees. -/
noncomputable def toDeg (rad : ℝ) : ℝ := rad * 180 / Real.pi

/-- JavaScript `Math.atan2(y, x)`. -/
noncomputable def atan2 (y x : ℝ) : ℝ :=
  if 0 < x then Real.arctan (y / x)
  else if x < 0 then
    (if 0 ≤ y then Real.arctan (y / x) + Real.pi else Real.arctan (y / x) - Real.pi)
  else
    (if 0 < y then Real.pi / 2 else if y < 0 then -(Real.pi / 2) else 0)

lemma atan2_mem (y x : ℝ) : -Real.pi ≤ atan2 y x ∧ atan2 y x ≤ Real.pi := by
  have hpi := Real.pi_pos
  have harc1 : ∀ z : ℝ, -(Real.pi / 2) < Real.arctan z := fun z =>
    Real.neg_pi_div_two_lt_arctan z
  have harc2 : ∀ z : ℝ, Real.arctan z < Real.pi / 2 := fun z =>
    Real.arctan_lt_pi_div_two z
  rw [atan2]
  split
  · constructor <;> [linarith [harc1 (y / x)]; linarith [harc2 (y / x)]]
  · split
    · split
      · rename_i hx0 hx hy
        have hyx : y / x ≤ 0 := div_nonpos_of_nonneg_of_nonpos hy (by linarith)
        have harc0 : Real.arctan (y / x) ≤ 0 := by
          calc Real.arctan (y / x) ≤ Real.arctan 0 :=
                Real.arctan_strictMono.monotone hyx
          _ = 0 := Real.arctan_zero
        constructor <;> [linarith [harc1 (y / x)]; linarith]
      · rename_i hx0 hx hy
        push_neg at hy
        have hyx : 0 ≤ y / x := div_nonneg_of_nonpos hy.le (by linarith)
        have harc0 : 0 ≤ Real.arctan (y / x) := by
          calc (0:ℝ) = Real.arctan 0 := Real.arctan_zero.symm
          _ ≤ Real.arctan (y / x) := Real.arctan_strictMono.monotone hyx
        constructor <;> [linarith; linarith [harc2 (y / x)]]
    · split
      · constructor <;> linarith
      · split
        · constructor <;> linarith
        · constructor <;> linarith

/-- `App.tsx` lines 716-726: initial bearing, `(toDeg(atan2(y,x)) + 360) % 360`. -/
noncomputable def bearingDeg (lat1 lon1 lat2 lon2 : ℝ) : ℝ :=
  let phi1 := toRad lat1
  let phi2 := toRad lat2
  let lambda1 := toRad lon1
  let lambda2 := toRad lon2
  let y := Real.sin (lambda2 - lambda1) * Real.cos phi2
  let x := Real.cos phi1 * Real.sin phi2 -
    Real.sin phi1 * Real.cos phi2 * Real.cos (lambda2 - lambda1)
  jsMod (toDeg (atan2 y x) + 360) 360

/-- The bearing always lands in `[0, 360)`. -/
lemma bearingDeg_mem (lat1 lon1 lat2 lon2 : ℝ) :
    0 ≤ bearingDeg lat1 lon1 lat2 lon2 ∧ bearingDeg lat1 lon1 lat2 lon2 < 360 := by
  have hpi := Real.pi_pos
  rw [bearingDeg]
  set a := atan2 (Real.sin (toRad lon2 - toRad lon1) * Real.cos (toRad lat2))
    (Real.cos (toRad lat1) * Real.sin (toRad lat2) -
      Real.sin (toRad lat1) * Real.cos (toRad lat2) * Real.cos (toRad lon2 - toRad lon1))
    with ha
  obtain ⟨h1, h2⟩ := atan2_mem (Real.sin (toRad lon2 - toRad lon1) * Real.cos (toRad lat2))
    (Real.cos (toRad lat1) * Real.sin (toRad lat2) -
      Real.sin (toRad lat1) * Real.cos (toRad lat2) * Real.cos (toRad lon2 - toRad lon1))
  rw [← ha] at h1 h2
  have hdeg : -180 ≤ toDeg a ∧ toDeg a ≤ 180 := by
    rw [toDeg]
    constructor
    · rw [le_div_iff₀ hpi]
      linarith
    · rw [div_le_iff₀ hpi]
      linarith
  exact jsMod_mem (by norm_num) (by linarith [hdeg.1])

/-- `App.tsx` lines 733-741: haversine distance with mean Earth radius
6,371,000 m (`2 * R * atan2(sqrt a, sqrt (1 - a))`). -/
noncomputable def haversineMeters (lat1 lon1 lat2 lon2 : ℝ) : ℝ :=
  let dLat := toRad (lat2 - lat1)
  let dLon := toRad (lon2 - lon1)
  let a := Real.sin (dLat / 2) ^ 2 +
    Real.cos (toRad lat1) * Real.cos (toRad lat2) * Real.sin (dLon / 2) ^ 2
  2 * 6371000 * atan2 (Real.sqrt a) (Real.sqrt (1 - a))

/-- Camera preset record (`App.tsx` lines 529-539). -/
structure CameraPreset where
  id : String
  label : String
  lookaheadMeters : ℝ
  chaseMeters : ℝ
  pitch : ℝ
  zoomBase : ℝ
  zoomMin : ℝ
  zoomMax : ℝ
  bearingSmoothing : ℝ

/-- The `cinematic` preset (`App.tsx` lines 675-685). -/
noncomputable def cinematic : CameraPreset :=
  ⟨"cinematic", "Cinematic", 320, 135, 72, 13.6, 11.5, 14.2, 0.14⟩

/-- The `chase` preset (`App.tsx` lines 697-707). -/
noncomputable def chase : CameraPreset :=
  ⟨"chase", "Chase", 180, 80, 62, 14.1, 11.8, 14.5, 0.2⟩

/-- Camera pose (`App.tsx` lines 540-546). -/
structure CameraState where
  lon : ℝ
  lat : ℝ
  zoom : ℝ
  bearing : ℝ
  pitch : ℝ

/-- Playback state (`App.tsx` line 525). -/
inductive PlaybackState where
  | idle
  | playing
  | paused
deriving DecidableEq

/-- The slice of `TrackDetails` the engine reads: the summary's `distanceM`
and the raw point sequence. -/
structure TrackDetailsR where
  distanceM : ℝ
  points : List (TrackPoint ℝ)

/-- The engine's mutable cells: the refs and React state threaded through the
component (`App.tsx` lines 828-854). `mapPresent` models a ready `mapRef`. -/
structure EngineState where
  selectedDetails : Option TrackDetailsR
  mapPresent : Bool
  playbackState : PlaybackState
  progress : ℝ
  progressRef : ℝ
  hasPlayed : Bool
  lastBearing : Option ℝ
  cameraState : Option CameraState
  lastCameraUpdateMs : ℝ
  playbackPointsRef : List (TrackPoint ℝ)
  zoomOffset : ℝ
  cameraPreset : CameraPreset

/-- `App.tsx` lines 1274-1275: `playbackPointsRef.current.length > 1 ?
playbackPointsRef.current : details?.points ?? []`. -/
def playbackPointsOf (st : EngineState) : List (TrackPoint ℝ) :=
  if 1 < st.playbackPointsRef.length then st.playbackPointsRef
  else (st.selectedDetails.map TrackDetailsR.points).getD []

/-- `App.tsx` lines 1271-1348 (`updateCameraAtProgress`): guards, distance
interpolation, bearing smoothing, zoom clamp, pose blending; returns the new
engine state and the pose emitted to the renderer (`map.jumpTo`), or `none`
when the update is dropped. -/
noncomputable def updateCameraAtProgress (st : EngineState) (value nowMs : ℝ)
    (force : Bool) : EngineState × Option CameraState :=
  let playbackPoints := playbackPointsOf st
  if st.selectedDetails.isNone = true ∨ st.mapPresent = false ∨ playbackPoints.length < 2 then
    (st, none)
  else if force = false ∧ nowMs - st.lastCameraUpdateMs < 16 then (st, none)
  else
    let st1 := {st with lastCameraUpdateMs := nowMs}
    let totalDistance := max (dAt playbackPoints (playbackPoints.length - 1)) 1
    let targetDistance := clamp value 0 1 * totalDistance
    let lookaheadDistance := st.cameraPreset.lookaheadMeters
    let chaseDistance := st.cameraPreset.chaseMeters
    let current := interpolatePointAtDistance playbackPoints targetDistance
    let lookahead := interpolatePointAtDistance playbackPoints (targetDistance + lookaheadDistance)
    let behind := interpolatePointAtDistance playbackPoints (targetDistance - chaseDistance)
    let lookDistance := haversineMeters current.lat current.lon lookahead.lat lookahead.lon
    let rawBearing :=
      if lookDistance < 5 ∧ st.lastBearing.isSome = true then st.lastBearing.getD 0
      else bearingDeg current.lat current.lon lookahead.lat lookahead.lon
    let smoothedBearing :=
      match st.lastBearing with
      | none => rawBearing
      | some prevBearing =>
        let desired := jsMod (prevBearing +
          shortestAngleDiff prevBearing rawBearing * st.cameraPreset.bearingSmoothing + 360) 360
        let turnStep := clamp (shortestAngleDiff prevBearing desired) (-(5/2)) (5/2)
        jsMod (prevBearing + turnStep + 360) 360
    let zoom := clamp (st.cameraPreset.zoomBase + st.zoomOffset)
      st.cameraPreset.zoomMin st.cameraPreset.zoomMax
    let desiredLon := lerp current.lon behind.lon 0.74
    let desiredLat := lerp current.lat behind.lat 0.74
    let desiredPitch := st.cameraPreset.pitch
    let follow : ℝ := if st.playbackState = PlaybackState.playing then 0.14 else 0.28
    let smoothedCamera : CameraState :=
      match st.cameraState with
      | some prevCamera =>
        ⟨lerp prevCamera.lon desiredLon follow,
         lerp prevCamera.lat desiredLat follow,
         lerp prevCamera.zoom zoom follow,
         jsMod (prevCamera.bearing +
           shortestAngleDiff prevCamera.bearing smoothedBearing * follow + 360) 360,
         lerp prevCamera.pitch desiredPitch follow⟩
      | none => ⟨desiredLon, desiredLat, zoom, smoothedBearing, desiredPitch⟩
    ({st1 with lastBearing := some smoothedBearing, cameraState := some smoothedCamera},
     some smoothedCamera)

/-- `App.tsx` lines 1454-1477 (`togglePlay`): no-op without a selected track;
pause while playing; otherwise restart from 0 when finished, sync the
progress ref and start playing. -/
noncomputable def togglePlay (st : EngineState) (nowMs : ℝ) :
    EngineState × Option CameraState :=
  match st.selectedDetails with
  | none => (st, none)
  | some _ =>
    if st.playbackState = PlaybackState.playing then
      ({st with playbackState := PlaybackState.paused}, none)
    else
      let p := st.progress
      let r1 :=
        if 1 ≤ p then
          updateCameraAtProgress
            {st with progress := 0, progressRef := 0, lastBearing := none} 0 nowMs true
        else (st, none)
      let st2 := if p < 1 then {r1.1 with progressRef := p} else r1.1
      ({st2 with hasPlayed := true, playbackState := PlaybackState.playing}, r1.2)

/-- `App.tsx` lines 1479-1486 (`onScrub`): progress from the slider value
(`value / 100`), then a forced camera update. -/
noncomputable def onScrub (st : EngineState) (rawValue nowMs : ℝ) :
    EngineState × Option CameraState :=
  let next := rawValue / 100
  updateCameraAtProgress
    {st with hasPlayed := st.hasPlayed || (if 0 < next then true else false),
             progress := next, progressRef := next}
    next nowMs true

/-- `App.tsx` lines 1362-1392: one animation-frame tick while playing — real
clock delta over `clamp(distanceM * 6, 25000, 150000) / speed`, progress
clamped to `[0,1]`, camera update (throttled, not forced), UI publication at
≥ 80 ms (or at completion), pause on reaching 1. -/
noncomputable def tick (st : EngineState) (lastFrameMs : Option ℝ)
    (lastUiFrameMs : Option ℝ) (timestamp speed : ℝ) :
    EngineState × Option CameraState :=
  match st.selectedDetails with
  | none => (st, none)
  | some details =>
    let baseDurationMs := clamp (details.distanceM * 6) 25000 150000
    let delta := timestamp - lastFrameMs.getD timestamp
    let increment := delta / (baseDurationMs / speed)
    let next := clamp (st.progressRef + increment) 0 1
    let r := updateCameraAtProgress {st with progressRef := next} next timestamp false
    let publish :=
      match lastUiFrameMs with
      | none => true
      | some lastUi => if 80 < timestamp - lastUi ∨ 1 ≤ next then true else false
    let st2 := if publish then {r.1 with progress := next} else r.1
    let st3 := if 1 ≤ next then {st2 with playbackState := PlaybackState.paused} else st2
    (st3, r.2)

/-- With fewer than 2 playback points the camera update returns before touching
any state and emits nothing (`App.tsx` line 1276). -/
lemma updateCamera_short (st : EngineState) (v now : ℝ) (f : Bool)
    (h : (playbackPointsOf st).length < 2) :
    updateCameraAtProgress st v now f = (st, none) := by
  rw [updateCameraAtProgress, if_pos (Or.inr (Or.inr h))]

/-- C2 (amended): with a loaded track of fewer than 2 points no camera pose is
ever computed or emitted (every camera update returns `(st, none)`), but
`play()` is **not** a no-op: `togglePlay` still switches any non-playing state
to `playing`, and a subsequent animation tick still advances `progressRef`
(while continuing to emit no camera update). -/
theorem short_track_engine_behaviour :
    (∀ (st : EngineState) (v now : ℝ) (f : Bool),
      (playbackPointsOf st).length < 2 →
        updateCameraAtProgress st v now f = (st, none)) ∧
    (∀ (st : EngineState) (now : ℝ),
      st.selectedDetails.isSome = true → st.playbackState ≠ PlaybackState.playing →
        ((togglePlay st now).1).playbackState = PlaybackState.playing) ∧
    (∀ (st : EngineState) (tl ts speed : ℝ) (ui : Option ℝ),
      st.selectedDetails.isSome = true → (playbackPointsOf st).length < 2 →
      0 < speed → tl < ts → st.progressRef < 1 →
        st.progressRef < ((tick st (some tl) ui ts speed).1).progressRef ∧
        (tick st (some tl) ui ts speed).2 = none) := by
  refine ⟨updateCamera_short, ?_, ?_⟩
  · intro st now h hne
    obtain ⟨d, hd⟩ := Option.isSome_iff_exists.mp h
    rw [togglePlay, hd]
    dsimp only []
    rw [if_neg hne]
  · intro st tl ts speed ui h hlen hspeed hts hp
    obtain ⟨d, hd⟩ := Option.isSome_iff_exists.mp h
    have hbase : (0:ℝ) < clamp (d.distanceM * 6) 25000 150000 :=
      lt_of_lt_of_le (by norm_num) (le_clamp _ _ _ (by norm_num))
    have hinc : (0:ℝ) < (ts - tl) / (clamp (d.distanceM * 6) 25000 150000 / speed) :=
      div_pos (by linarith) (div_pos hbase hspeed)
    have hnext : st.progressRef <
        clamp (st.progressRef + (ts - tl) / (clamp (d.distanceM * 6) 25000 150000 / speed))
          0 1 := by
      rw [clamp]
      refine lt_min (lt_of_lt_of_le (by linarith) (le_max_left _ _)) hp
    have hlen' : (playbackPointsOf {st with progressRef :=
        (clamp (st.progressRef + (ts - tl) / (clamp (d.distanceM * 6) 25000 150000 / speed))
          0 1)}).length < 2 := hlen
    rw [hd] at hlen'
    rw [tick, hd]
    dsimp only []
    rw [Option.getD_some, updateCamera_short _ _ _ _ hlen']
    dsimp only []
    constructor
    · split
      · split <;> exact hnext
      · split <;> exact hnext
    · rfl

/-- One-point track and the engine state right after loading it. -/
noncomputable def c2track : TrackDetailsR := ⟨0, [⟨0, 0, none, none, 0⟩]⟩

/-- Engine state with the one-point track selected, idle, at progress 0. -/
noncomputable def c2state : EngineState :=
  ⟨some c2track, true, PlaybackState.idle, 0, 0, false, none, none, 0, [], 0, cinematic⟩

/-- Witness for C2 on the one-point track `c2track`. -/
theorem short_track_engine_behaviour_witness :
    updateCameraAtProgress c2state (1/2) 0 true = (c2state, none) ∧
    ((togglePlay c2state 0).1).playbackState = PlaybackState.playing ∧
    (c2state.progressRef < ((tick c2state (some 0) none 1000 2).1).progressRef ∧
      (tick c2state (some 0) none 1000 2).2 = none) :=
  ⟨short_track_engine_behaviour.1 c2state (1/2) 0 true (by decide),
   short_track_engine_behaviour.2.1 c2state 0 rfl (by decide),
   short_track_engine_behaviour.2.2 c2state 0 1000 2 none rfl (by decide) (by norm_num)
     (by norm_num) (by norm_num [c2state])⟩

/-- C2 counterexample: with a loaded 1-point track, `togglePlay` from `idle`
sets the playback state to `playing` — the claim's "`play()` is a no-op (the
playback state does not become `playing`)" is false on the code, which only
checks `!selectedDetails`, not the point count. -/
theorem short_track_play_not_noop :
    (playbackPointsOf c2state).length = 1 ∧
    c2state.playbackState = PlaybackState.idle ∧
    ((togglePlay c2state 0).1).playbackState = PlaybackState.playing := by
  refine ⟨by decide, rfl, ?_⟩
  rw [togglePlay, show c2state.selectedDetails = some c2track from rfl]
  dsimp only []
  rw [if_neg (by decide : ¬(c2state.playbackState = PlaybackState.playing))]

/-! ### C3: seek idempotence -/

/-- Camera update from a fresh pose (no previous camera state, no previous
bearing): the pose snaps directly to the desired values and the raw bearing is
used unsmoothed. -/
lemma updateCamera_fresh (st : EngineState) (value nowMs : ℝ) (force : Bool)
    (hguard : ¬(st.selectedDetails.isNone = true ∨ st.mapPresent = false ∨
      (playbackPointsOf st).length < 2))
    (hthrottle : ¬(force = false ∧ nowMs - st.lastCameraUpdateMs < 16))
    (hcam : st.cameraState = none) (hbear : st.lastBearing = none) :
    updateCameraAtProgress st value nowMs force =
      (let playbackPoints := playbackPointsOf st
       let totalDistance := max (dAt playbackPoints (playbackPoints.length - 1)) 1
       let targetDistance := clamp value 0 1 * totalDistance
       let current := interpolatePointAtDistance playbackPoints targetDistance
       let lookahead := interpolatePointAtDistance playbackPoints
         (targetDistance + st.cameraPreset.lookaheadMeters)
       let behind := interpolatePointAtDistance playbackPoints
         (targetDistance - st.cameraPreset.chaseMeters)
       let b := bearingDeg current.lat current.lon lookahead.lat lookahead.lon
       let cam : CameraState :=
         ⟨lerp current.lon behind.lon 0.74, lerp current.lat behind.lat 0.74,
          clamp (st.cameraPreset.zoomBase + st.zoomOffset) st.cameraPreset.zoomMin
            st.cameraPreset.zoomMax,
          b, st.cameraPreset.pitch⟩
       ({st with lastCameraUpdateMs := nowMs, lastBearing := some b,
                 cameraState := some cam}, some cam)) := by
  rw [updateCameraAtProgress, if_neg hguard, if_neg hthrottle, hbear, hcam]
  simp only [Option.isSome_none, Bool.false_eq_true, and_false, if_false]

lemma playbackPointsOf_congr (st st' : EngineState)
    (h1 : st'.playbackPointsRef = st.playbackPointsRef)
    (h2 : st'.selectedDetails = st.selectedDetails) :
    playbackPointsOf st' = playbackPointsOf st := by
  rw [playbackPointsOf, playbackPointsOf, h1, h2]

/-- Core of seek idempotence: a second forced camera update from the state
produced by a fresh-pose update (with unchanged track, preset, zoom offset and
playback state) reproduces exactly the same camera state, stored bearing and
emitted pose. -/
lemma updateCamera_twice_fresh (st st' : EngineState) (value t1 t2 : ℝ)
    (hguard : ¬(st.selectedDetails.isNone = true ∨ st.mapPresent = false ∨
      (playbackPointsOf st).length < 2))
    (hcam : st.cameraState = none) (hbear : st.lastBearing = none)
    (h1 : st'.selectedDetails = st.selectedDetails)
    (h2 : st'.mapPresent = st.mapPresent)
    (h3 : st'.playbackPointsRef = st.playbackPointsRef)
    (h4 : st'.cameraPreset = st.cameraPreset)
    (h5 : st'.zoomOffset = st.zoomOffset)
    (h6 : st'.playbackState = st.playbackState)
    (h7 : st'.cameraState = (updateCameraAtProgress st value t1 true).1.cameraState)
    (h8 : st'.lastBearing = (updateCameraAtProgress st value t1 true).1.lastBearing) :
    (updateCameraAtProgress st' value t2 true).1.cameraState =
      (updateCameraAtProgress st value t1 true).1.cameraState ∧
    (updateCameraAtProgress st' value t2 true).1.lastBearing =
      (updateCameraAtProgress st value t1 true).1.lastBearing ∧
    (updateCameraAtProgress st' value t2 true).2 =
      (updateCameraAtProgress st value t1 true).2 := by
  have hfresh := updateCamera_fresh st value t1 true hguard (by simp) hcam hbear
  rw [hfresh] at h7 h8 ⊢
  dsimp only [] at h7 h8 ⊢
  set pts := playbackPointsOf st with hpts
  set tgt : ℝ := clamp value 0 1 * max (dAt pts (pts.length - 1)) 1 with htgt
  set cur := interpolatePointAtDistance pts tgt with hcur
  set la := interpolatePointAtDistance pts (tgt + st.cameraPreset.lookaheadMeters) with hla
  set bh := interpolatePointAtDistance pts (tgt - st.cameraPreset.chaseMeters) with hbh
  set b : ℝ := bearingDeg cur.lat cur.lon la.lat la.lon with hb
  obtain ⟨hb0, hb1⟩ := bearingDeg_mem cur.lat cur.lon la.lat la.lon
  rw [← hb] at hb0 hb1
  have hguard' : ¬(st'.selectedDetails.isNone = true ∨ st'.mapPresent = false ∨
      (playbackPointsOf st').length < 2) := by
    rw [h1, h2, playbackPointsOf_congr st st' h3 h1]
    exact hguard
  rw [updateCameraAtProgress, if_neg hguard', if_neg (by simp)]
  rw [playbackPointsOf_congr st st' h3 h1, h4, h5, h6, h7, h8]
  dsimp only []
  rw [← hpts, ← htgt, ← hcur, ← hla, ← hbh, ← hb]
  simp only [Option.isSome_some, and_true, Option.getD_some, ite_self, lerp_self,
    shortestAngleDiff_self hb0 hb1, zero_mul, add_zero, jsMod_wrap_eq_self hb0 hb1,
    clamp_eq_self (0:ℝ) (-(5/2)) (5/2) (by norm_num) (by norm_num)]

/-- C3 (amended): seek is idempotent from a fresh pose — with no previous
camera state and no previous bearing (the situation right after a track load
or preset change), `seek(v)` snaps to the desired pose, and an immediately
repeated identical seek reproduces exactly the same CameraState, stored
bearing and emitted pose. (With a previous camera state not yet at the desired
pose, each seek blends 28 % further toward it, so two successive seeks differ —
see the counterexample.) -/
theorem seek_idempotent_from_fresh_pose (st : EngineState) (v t1 t2 : ℝ)
    (hguard : ¬(st.selectedDetails.isNone = true ∨ st.mapPresent = false ∨
      (playbackPointsOf st).length < 2))
    (hcam : st.cameraState = none) (hbear : st.lastBearing = none) :
    ((onScrub (onScrub st v t1).1 v t2).1).cameraState = ((onScrub st v t1).1).cameraState ∧
    ((onScrub (onScrub st v t1).1 v t2).1).lastBearing = ((onScrub st v t1).1).lastBearing ∧
    (onScrub (onScrub st v t1).1 v t2).2 = (onScrub st v t1).2 := by
  simp only [onScrub]
  set stA : EngineState := {st with
    hasPlayed := st.hasPlayed || (if 0 < v / 100 then true else false),
    progress := v / 100, progressRef := v / 100} with hstA
  have hguardA : ¬(stA.selectedDetails.isNone = true ∨ stA.mapPresent = false ∨
      (playbackPointsOf stA).length < 2) := hguard
  have hcamA : stA.cameraState = none := hcam
  have hbearA : stA.lastBearing = none := hbear
  refine updateCamera_twice_fresh stA _ (v / 100) t1 t2 hguardA hcamA hbearA
    ?_ ?_ ?_ ?_ ?_ ?_ rfl rfl <;>
    rw [updateCamera_fresh stA (v / 100) t1 true hguardA (by simp) hcamA hbearA]

/-- 2-point track list used by the C3 scenarios. -/
noncomputable def c3pts : List (TrackPoint ℝ) :=
  [⟨0, 0, none, none, 0⟩, ⟨0, 1, none, none, 200000⟩]

/-- Engine state with `c3pts` loaded, paused, no previous pose (fresh). -/
noncomputable def c3fresh : EngineState :=
  ⟨some ⟨200000, c3pts⟩, true, PlaybackState.paused, 0, 0, false, none, none, 0, c3pts, 0,
   cinematic⟩

/-- Witness for C3 on the fresh-pose state `c3fresh`, seeking to 0.5 twice. -/
theorem seek_idempotent_from_fresh_pose_witness :
    ((onScrub (onScrub c3fresh 50 0).1 50 1).1).cameraState =
      ((onScrub c3fresh 50 0).1).cameraState ∧
    ((onScrub (onScrub c3fresh 50 0).1 50 1).1).lastBearing =
      ((onScrub c3fresh 50 0).1).lastBearing ∧
    (onScrub (onScrub c3fresh 50 0).1 50 1).2 = (onScrub c3fresh 50 0).2 :=
  seek_idempotent_from_fresh_pose c3fresh 50 0 1 (by decide) rfl rfl

/-- Camera update from a state with a previous pose: the result blends the
previous pose toward the desired one; in particular the zoom moves by the
follow factor of the distance to the clamped desired zoom, and the
engine-configuration fields are preserved. -/
lemma updateCamera_blend_zoom (st : EngineState) (value nowMs : ℝ) (force : Bool)
    (hguard : ¬(st.selectedDetails.isNone = true ∨ st.mapPresent = false ∨
      (playbackPointsOf st).length < 2))
    (hthrottle : ¬(force = false ∧ nowMs - st.lastCameraUpdateMs < 16))
    (prev : CameraState) (hcam : st.cameraState = some prev) :
    ∃ cam : CameraState,
      (updateCameraAtProgress st value nowMs force).1.cameraState = some cam ∧
      (updateCameraAtProgress st value nowMs force).2 = some cam ∧
      cam.zoom = lerp prev.zoom
        (clamp (st.cameraPreset.zoomBase + st.zoomOffset) st.cameraPreset.zoomMin
          st.cameraPreset.zoomMax)
        (if st.playbackState = PlaybackState.playing then 0.14 else 0.28) ∧
      (updateCameraAtProgress st value nowMs force).1.selectedDetails = st.selectedDetails ∧
      (updateCameraAtProgress st value nowMs force).1.mapPresent = st.mapPresent ∧
      (updateCameraAtProgress st value nowMs force).1.playbackPointsRef =
        st.playbackPointsRef ∧
      (updateCameraAtProgress st value nowMs force).1.playbackState = st.playbackState ∧
      (updateCameraAtProgress st value nowMs force).1.zoomOffset = st.zoomOffset ∧
      (updateCameraAtProgress st value nowMs force).1.cameraPreset = st.cameraPreset := by
  rw [updateCameraAtProgress, if_neg hguard, if_neg hthrottle, hcam]
  exact ⟨_, rfl, rfl, rfl, rfl, rfl, rfl, rfl, rfl, rfl⟩

/-- Engine state with `c3pts` loaded, paused, and a previous camera pose at
zoom 14.1 (e.g. left over from the `chase` preset before switching to
`cinematic`, which resets only `lastBearing`). -/
noncomputable def c3state : EngineState :=
  ⟨some ⟨200000, c3pts⟩, true, PlaybackState.paused, 3/10, 3/10, true, none,
   some ⟨0, 0, 14.1, 90, 68⟩, 0, c3pts, 0, cinematic⟩

/-- C3 counterexample: from a state whose camera zoom (14.1) is not yet the
desired zoom (13.6), `seek(0.5)` yields zoom 13.96, and an immediately repeated
`seek(0.5)` yields zoom 13.8592 — each seek blends 28 % toward the desired
pose, so the CameraState after the second call differs from the one after the
first, contradicting the claimed idempotence. -/
theorem seek_twice_camera_differs :
    ((onScrub c3state 50 0).1.cameraState.map CameraState.zoom) = some (13.96:ℝ) ∧
    ((onScrub (onScrub c3state 50 0).1 50 1).1.cameraState.map CameraState.zoom) =
      some (13.8592:ℝ) ∧
    (onScrub (onScrub c3state 50 0).1 50 1).1.cameraState ≠
      (onScrub c3state 50 0).1.cameraState := by
  simp only [onScrub]
  set stA : EngineState := {c3state with
    hasPlayed := c3state.hasPlayed || (if 0 < (50:ℝ) / 100 then true else false),
    progress := (50:ℝ) / 100, progressRef := (50:ℝ) / 100} with hstA
  have hguardA : ¬(stA.selectedDetails.isNone = true ∨ stA.mapPresent = false ∨
      (playbackPointsOf stA).length < 2) := by decide
  obtain ⟨cam1, hc1, he1, hz1, hsel, hmap, hpbr, hps, hzo, hcp⟩ :=
    updateCamera_blend_zoom stA (50/100) 0 true hguardA (by simp)
      ⟨0, 0, 14.1, 90, 68⟩ rfl
  have hz1v : cam1.zoom = (13.96:ℝ) := by
    rw [hz1]
    rw [show stA.cameraPreset = cinematic from rfl,
      show stA.zoomOffset = (0:ℝ) from rfl,
      if_neg (by decide : ¬(stA.playbackState = PlaybackState.playing))]
    rw [show ((⟨0, 0, 14.1, 90, 68⟩ : CameraState)).zoom = (14.1:ℝ) from rfl]
    rw [cinematic]
    norm_num [lerp, clamp, min_def, max_def]
  set stB : EngineState := {(updateCameraAtProgress stA (50/100) 0 true).1 with
    hasPlayed := (updateCameraAtProgress stA (50/100) 0 true).1.hasPlayed ||
      (if 0 < (50:ℝ) / 100 then true else false),
    progress := (50:ℝ) / 100, progressRef := (50:ℝ) / 100} with hstB
  have hpbB : playbackPointsOf stB = playbackPointsOf stA :=
    playbackPointsOf_congr stA stB hpbr hsel
  have hguardB : ¬(stB.selectedDetails.isNone = true ∨ stB.mapPresent = false ∨
      (playbackPointsOf stB).length < 2) := by
    rw [show stB.selectedDetails = (updateCameraAtProgress stA (50/100) 0 true).1.selectedDetails
        from rfl, hsel,
      show stB.mapPresent = (updateCameraAtProgress stA (50/100) 0 true).1.mapPresent from rfl,
      hmap, hpbB]
    exact hguardA
  have hcamB : stB.cameraState = some cam1 := hc1
  obtain ⟨cam2, hc2, he2, hz2, _, _, _, _, _, _⟩ :=
    updateCamera_blend_zoom stB (50/100) 1 true hguardB (by simp) cam1 hcamB
  have hz2v : cam2.zoom = (13.8592:ℝ) := by
    rw [hz2, hz1v]
    rw [show stB.cameraPreset = (updateCameraAtProgress stA (50/100) 0 true).1.cameraPreset
        from rfl, hcp,
      show stB.zoomOffset = (updateCameraAtProgress stA (50/100) 0 true).1.zoomOffset from rfl,
      hzo,
      show stB.playbackState = (updateCameraAtProgress stA (50/100) 0 true).1.playbackState
        from rfl, hps]
    rw [show stA.cameraPreset = cinematic from rfl,
      show stA.zoomOffset = (0:ℝ) from rfl,
      if_neg (by decide : ¬(stA.playbackState = PlaybackState.playing))]
    rw [cinematic]
    norm_num [lerp, clamp, min_def, max_def]
  refine ⟨by rw [hc1, Option.map_some', hz1v], by rw [hc2, Option.map_some', hz2v], ?_⟩
  rw [hc1, hc2]
  intro hcontra
  have : cam2.zoom = cam1.zoom := by
    have := Option.some.inj hcontra
    rw [this]
  rw [hz1v, hz2v] at this
  norm_num at this

end GpxFlyby

